import Mathlib

/-!
# grpcer: the protoc-gen-grpcer generator

A shallow embedding of `protoc-gen-grpcer/gen.go` (functions `Generate` and `genGo`, and the
receiver types of the emitted template text).

Conventions of the embedding.

* Go strings are modelled by `String`; the byte-level operations of the source that are used
  (`strings.Split`, `strings.IndexByte`, `strings.HasPrefix`, `strings.TrimSuffix`, the
  `path/filepath` functions) all search for ASCII bytes, so that on UTF-8 text they agree with the
  character-level operations used here.
* Descriptor structures are values; their optional scalar fields are `Option`s and are read
  through getters (`GetName`, `GetPackage`, ...) that return the zero value when a field is unset,
  as the generated Go getters do.
* A Go `map[string]V` is an association list with pairwise distinct keys (`GoMap`).
-/

namespace Grpcer

/-! ## Go maps -/

/-- A Go `map[string]V`: an association list whose keys are kept pairwise distinct by `set`. -/
abbrev GoMap (V : Type) := List (String × V)

/-- The lookup `m[k]` in its two-valued form: `none` when the key is absent. -/
def GoMap.get? {V : Type} (m : GoMap V) (k : String) : Option V :=
  match m with
  | [] => none
  | (k', v) :: rest => if k' = k then some v else GoMap.get? rest k

/-- The assignment `m[k] = v`: any previous entry for `k` is replaced. -/
def GoMap.set {V : Type} (m : GoMap V) (k : String) (v : V) : GoMap V :=
  (k, v) :: m.filter (fun p => !decide (p.1 = k))

/-- The keys of a map. -/
def GoMap.keys {V : Type} (m : GoMap V) : List String := m.map Prod.fst

/-- The values of a map, in the order in which `range` is taken to visit them. -/
def GoMap.values {V : Type} (m : GoMap V) : List V := m.map Prod.snd

/-! ## Descriptors -/

/-- The `descriptor.DescriptorProto` of a message type: its name, and its field names standing for
the rest of its content. -/
structure DescriptorProto where
  Name : Option String
  Field : List String
deriving DecidableEq, Repr

/-- The `descriptor.MethodDescriptorProto` of an RPC method. -/
structure MethodDescriptorProto where
  Name : Option String
  InputType : Option String
  OutputType : Option String
  ServerStreaming : Option Bool
deriving DecidableEq, Repr

/-- The `descriptor.ServiceDescriptorProto` of a service. -/
structure ServiceDescriptorProto where
  Name : Option String
  Method : List MethodDescriptorProto
deriving DecidableEq, Repr

/-- The `descriptor.FileDescriptorProto` of a proto file. -/
structure FileDescriptorProto where
  Name : Option String
  Package : Option String
  Dependency : List String
  MessageType : List DescriptorProto
  Service : List ServiceDescriptorProto
deriving DecidableEq, Repr

/-- The `protoc.CodeGeneratorRequest`. -/
structure CodeGeneratorRequest where
  FileToGenerate : List String
  Parameter : Option String
  ProtoFile : List FileDescriptorProto
deriving DecidableEq, Repr

def DescriptorProto.GetName (m : DescriptorProto) : String := m.Name.getD ""

def MethodDescriptorProto.GetName (m : MethodDescriptorProto) : String := m.Name.getD ""

def MethodDescriptorProto.GetInputType (m : MethodDescriptorProto) : String := m.InputType.getD ""

def MethodDescriptorProto.GetOutputType (m : MethodDescriptorProto) : String :=
  m.OutputType.getD ""

def MethodDescriptorProto.GetServerStreaming (m : MethodDescriptorProto) : Bool :=
  m.ServerStreaming.getD false

def ServiceDescriptorProto.GetName (s : ServiceDescriptorProto) : String := s.Name.getD ""

def ServiceDescriptorProto.GetMethod (s : ServiceDescriptorProto) : List MethodDescriptorProto :=
  s.Method

def FileDescriptorProto.GetName (f : FileDescriptorProto) : String := f.Name.getD ""

def FileDescriptorProto.GetPackage (f : FileDescriptorProto) : String := f.Package.getD ""

def FileDescriptorProto.GetDependency (f : FileDescriptorProto) : List String := f.Dependency

def FileDescriptorProto.GetMessageType (f : FileDescriptorProto) : List DescriptorProto :=
  f.MessageType

def FileDescriptorProto.GetService (f : FileDescriptorProto) : List ServiceDescriptorProto :=
  f.Service

def CodeGeneratorRequest.GetFileToGenerate (r : CodeGeneratorRequest) : List String :=
  r.FileToGenerate

def CodeGeneratorRequest.GetParameter (r : CodeGeneratorRequest) : String := r.Parameter.getD ""

def CodeGeneratorRequest.GetProtoFile (r : CodeGeneratorRequest) : List FileDescriptorProto :=
  r.ProtoFile

/-! ## `Generate`: the root and type resolver (gen.go, lines 76-97) -/

/-- The key `"."+f.GetPackage()+"."+m.GetName()` under which `Generate` indexes message `m` of
file `f`. -/
def typeKey (f : FileDescriptorProto) (m : DescriptorProto) : String :=
  "." ++ f.GetPackage ++ "." ++ m.GetName

/-- The inner loop `for _, m := range f.GetMessageType() { allTypes[...] = m }`. -/
def indexMessages (f : FileDescriptorProto) (allTypes : GoMap DescriptorProto) :
    GoMap DescriptorProto :=
  f.GetMessageType.foldl (fun acc m => acc.set (typeKey f m) m) allTypes

/-- The variables that the file loop of `Generate` updates. -/
structure Resolved where
  allTypes : GoMap DescriptorProto
  roots : GoMap FileDescriptorProto
  found : Nat

/-- One iteration of the loop `for i := len(files) - 1; i >= 0; i--` on the file `f = files[i]`:
the messages of `f` are indexed; then, unless `found == len(rootNames)`, the first requested name
equal to `f.GetName()` is entered into `roots` and counted. -/
def resolveStep (rootNames : List String) (st : Resolved) (f : FileDescriptorProto) : Resolved :=
  let allTypes := indexMessages f st.allTypes
  if st.found = rootNames.length then
    { st with allTypes := allTypes }
  else
    match rootNames.find? (fun root => decide (f.GetName = root)) with
    | some root => { allTypes := allTypes, roots := st.roots.set root f, found := st.found + 1 }
    | none => { st with allTypes := allTypes }

/-- The whole file loop: the files are visited from the last one to the first one. -/
def resolve (rootNames : List String) (files : List FileDescriptorProto) : Resolved :=
  files.reverse.foldl (resolveStep rootNames) { allTypes := [], roots := [], found := 0 }

/-- The map `allTypes` that `Generate` builds for a request. -/
def allTypes (req : CodeGeneratorRequest) : GoMap DescriptorProto :=
  (resolve req.GetFileToGenerate req.GetProtoFile).allTypes

/-- The map `roots` that `Generate` builds for a request. -/
def roots (req : CodeGeneratorRequest) : GoMap FileDescriptorProto :=
  (resolve req.GetFileToGenerate req.GetProtoFile).roots

/-! ### Specification-side notions for the resolver -/

/-- The file `f` defines the qualified name `key`. -/
def Defines (f : FileDescriptorProto) (key : String) : Prop :=
  ∃ m ∈ f.GetMessageType, typeKey f m = key

instance (f : FileDescriptorProto) (key : String) : Decidable (Defines f key) := by
  unfold Defines
  infer_instance

/-- The descriptor that file `f` contributes for `key`: the last of its messages with that
qualified name, if any. -/
def definitionIn (f : FileDescriptorProto) (key : String) : Option DescriptorProto :=
  (f.GetMessageType.filter (fun m => decide (typeKey f m = key))).getLast?

/-! ## The Go library functions used by the generator

Models of the functions of the Go standard library that `gen.go` calls, for a Unix target (path
separator `/`). -/

/-- Go `strings.IndexByte(s, c)`: the position of the first `c` in `s`; `none` stands for the
result `-1`. -/
def strings.IndexByte.go : List Char → Char → Option Nat
  | [], _ => none
  | x :: xs, c => if x = c then some 0 else (strings.IndexByte.go xs c).map (· + 1)

def strings.IndexByte (s : String) (c : Char) : Option Nat := strings.IndexByte.go s.data c

/-- The slice expression `s[:i]`. -/
def sliceTo (s : String) (i : Nat) : String := ⟨s.data.take i⟩

/-- The slice expression `s[i:]`. -/
def sliceFrom (s : String) (i : Nat) : String := ⟨s.data.drop i⟩

/-- Go `strings.Split(s, sep)` for a one-byte separator: the pieces of `s` between the
occurrences of `sep`; the empty string gives one empty piece. -/
def strings.Split.go : List Char → Char → List (List Char)
  | [], _ => [[]]
  | x :: xs, sep =>
    if x = sep then [] :: strings.Split.go xs sep
    else
      match strings.Split.go xs sep with
      | [] => [[x]]
      | piece :: pieces => (x :: piece) :: pieces

def strings.Split (s : String) (sep : Char) : List String :=
  (strings.Split.go s.data sep).map String.mk

/-- Go `strings.SplitN(s, sep, 2)` for a one-byte separator: `s` is cut at the first `sep`, or
returned whole when there is none. -/
def strings.SplitN2 (s : String) (sep : Char) : List String :=
  match strings.IndexByte s sep with
  | some i => [sliceTo s i, sliceFrom s (i + 1)]
  | none => [s]

/-- Go `strings.HasPrefix`. -/
def strings.HasPrefix (s pre : String) : Bool := pre.data.isPrefixOf s.data

/-- Go `strings.TrimSuffix`. -/
def strings.TrimSuffix (s suffix : String) : String :=
  if suffix.data.isSuffixOf s.data then sliceTo s (s.data.length - suffix.data.length) else s

/-- Go `strings.TrimLeft(s, cutset)`. -/
def strings.TrimLeft (s cutset : String) : String :=
  ⟨s.data.dropWhile (fun c => decide (c ∈ cutset.data))⟩

/-- The path elements of a path: the pieces between its separators. -/
def filepath.elements (path : List Char) : List (List Char) := strings.Split.go path '/'

/-- The backtracking of `filepath.Clean` on a `..` element: the write position `w` moves back
from `w - 1` while it is above `dotdot` and not on a separator. -/
def filepath.Clean.backtrack (out : List Char) (dotdot : Nat) : Nat → Nat
  | 0 => 0
  | w + 1 =>
    if dotdot < w + 1 ∧ out.getD (w + 1) '/' ≠ '/' then filepath.Clean.backtrack out dotdot w
    else w + 1

/-- The buffer of `filepath.Clean` and its mark `dotdot`. -/
structure filepath.Clean.State where
  out : List Char
  dotdot : Nat

/-- One turn of the loop of `filepath.Clean`, on the path element that starts at the read
position: an empty element and `.` are skipped, `..` removes the last element written (or is
written itself when the path is not rooted and nothing can be removed), any other element is
written after a separator. -/
def filepath.Clean.step (rooted : Bool) (st : filepath.Clean.State) (element : List Char) :
    filepath.Clean.State :=
  if element = [] then st
  else if element = ['.'] then st
  else if element = ['.', '.'] then
    if st.dotdot < st.out.length then
      let w := filepath.Clean.backtrack st.out st.dotdot (st.out.length - 1)
      { st with out := st.out.take w }
    else if !rooted then
      let out := (if 0 < st.out.length then st.out ++ ['/'] else st.out) ++ ['.', '.']
      { out := out, dotdot := out.length }
    else st
  else
    let needSlash := (rooted && st.out.length != 1) || (!rooted && st.out.length != 0)
    { st with out := (if needSlash then st.out ++ ['/'] else st.out) ++ element }

/-- Go `filepath.Clean`. -/
def filepath.Clean.go (path : List Char) : List Char :=
  if path = [] then ['.']
  else
    let rooted := path.head? = some '/'
    let start : filepath.Clean.State :=
      if rooted then { out := ['/'], dotdot := 1 } else { out := [], dotdot := 0 }
    let st := (filepath.elements path).foldl (filepath.Clean.step rooted) start
    if st.out.length = 0 then ['.'] else st.out

def filepath.Clean (path : String) : String := ⟨filepath.Clean.go path.data⟩

/-- Removal of the last path element: the part of the path up to and including its last
separator (empty when there is none). -/
def filepath.dirPrefix (path : List Char) : List Char :=
  (path.reverse.dropWhile (fun c => decide (c ≠ '/'))).reverse

/-- Go `filepath.Dir`: all but the last element of the path, cleaned. -/
def filepath.Dir (path : String) : String := ⟨filepath.Clean.go (filepath.dirPrefix path.data)⟩

/-- Go `filepath.Base`: the last element of the path, after removal of trailing separators. -/
def filepath.Base.go (path : List Char) : List Char :=
  if path = [] then ['.']
  else
    let stripped := (path.reverse.dropWhile (fun c => decide (c = '/'))).reverse
    let last := (stripped.reverse.takeWhile (fun c => decide (c ≠ '/'))).reverse
    if last = [] then ['/'] else last

def filepath.Base (path : String) : String := ⟨filepath.Base.go path.data⟩

/-- Go `filepath.Join`: the elements from the first non-empty one on are joined by separators
and the result is cleaned; the result is empty when every element is empty. -/
def filepath.Join (elem : List String) : String :=
  match elem.dropWhile (fun e => decide (e = "")) with
  | [] => ""
  | e :: rest => filepath.Clean (rest.foldl (fun acc x => acc ++ "/" ++ x) e)

/-! ## `Generate`: the parameter string (gen.go, lines 62-73) -/

/-- The body of the loop over the tokens of the parameter string, on the pair
`(destPkg, destDir)`. -/
def parameterStep (dest : String × String) (elt : String) : String × String :=
  match strings.IndexByte elt '=' with
  | some i =>
    let k := sliceTo elt i
    let v := sliceFrom elt (i + 1)
    if k = "package" then (v, dest.2)
    else if k = "path" then (dest.1, v)
    else dest
  | none => dest

/-- The pair `(destPkg, destDir)` that `Generate` derives from the parameter string. -/
def parseParameter (parameter : String) : String × String :=
  (strings.Split parameter ',').foldl parameterStep ("main", ".")

def destPkg (req : CodeGeneratorRequest) : String := (parseParameter req.GetParameter).1

def destDir (req : CodeGeneratorRequest) : String := (parseParameter req.GetParameter).2

/-! ### Specification-side notions for the parameter string -/

/-- The token has the form `key=value` with the given key: it contains a `=` and its text before
the first `=` is the key. -/
def tokenHasKey (key : String) (token : String) : Bool :=
  decide ('=' ∈ token.data) && decide (token.data.takeWhile (fun c => decide (c ≠ '=')) = key.data)

/-- The text of a token after its first `=`. -/
def tokenValue (token : String) : String :=
  ⟨(token.data.dropWhile (fun c => decide (c ≠ '='))).drop 1⟩

/-- The value of the last token with the given key, or the default when there is none. -/
def lastValue (key dflt : String) (tokens : List String) : String :=
  match (tokens.filter (tokenHasKey key)).getLast? with
  | some token => tokenValue token
  | none => dflt

/-! ## `genGo`: the dependency pruner (gen.go, lines 245-262) -/

/-- The body of the loop over the methods of the service: an input type that begins with `.`
enters its first dot-separated segment into the set `needed`. -/
def neededStep (needed : GoMap Unit) (m : MethodDescriptorProto) : GoMap Unit :=
  let t := m.GetInputType
  if !strings.HasPrefix t "." then needed
  else
    let t := sliceFrom t 1
    needed.set ((strings.SplitN2 t '.').headD "") ()

/-- The set `needed` of `genGo`. -/
def needed (svc : ServiceDescriptorProto) : GoMap Unit :=
  svc.GetMethod.foldl neededStep []

/-- The body of the loop over the dependencies: the directory of a dependency is appended when
its base name is in `needed`. -/
def depsStep (needed : GoMap Unit) (deps : List String) (dep : String) : List String :=
  let k := filepath.Dir dep
  match needed.get? (filepath.Base k) with
  | none => deps
  | some _ => deps ++ [k]

/-- The list `deps` of `genGo`. -/
def deps (svc : ServiceDescriptorProto) (dependencies : List String) : List String :=
  dependencies.foldl (depsStep (needed svc)) []

/-! ### Specification-side notions for the pruner -/

/-- The first dot-separated segment, after the leading `.`, of a type name that begins with `.`;
nothing for another type name. -/
def packageSegment (t : String) : Option String :=
  match t.data with
  | '.' :: rest => some ⟨rest.takeWhile (fun c => decide (c ≠ '.'))⟩
  | _ => none

/-- The needed-package set of a service, as a list: the package segments of the input types of
its methods. -/
def neededPackages (svc : ServiceDescriptorProto) : List String :=
  svc.GetMethod.filterMap (fun m => packageSegment m.GetInputType)

/-- The pruned list in the words of the specification: the directories of the dependencies, in
order, whose base name is a needed package. -/
def prunedDirectories (svc : ServiceDescriptorProto) (dependencies : List String) : List String :=
  (dependencies.map filepath.Dir).filter (fun k => decide (filepath.Base k ∈ neededPackages svc))

/-! ## `goTmpl` and `genGo`: the renderer (gen.go, lines 146-276) -/

/-- The template function `trimLeftDot`. -/
def trimLeftDot (s : String) : String := strings.TrimLeft s "."

/-- The text that `text/template` prints for a field of type `*string`: the string pointed to,
or `<nil>` for a nil pointer. -/
def printStringPtr (p : Option String) : String := p.getD "<nil>"

/-- The data that `genGo` hands to the template. -/
structure TemplateData where
  ProtoFile : String
  Package : String
  Import : String
  Dependencies : List String
  Service : ServiceDescriptorProto

/-- The text between `type onceRecv` and the `Input` function: it holds no template action. -/
def goTmpl.receivers : String :=
  "type onceRecv struct \x7b\n\tOut interface\x7b\x7d\n\tdone bool\n\x7d\n" ++
  "func (o *onceRecv) Recv() (interface\x7b\x7d, error) \x7b\n" ++
  "\tif o.done \x7b\n\t\treturn nil, io.EOF\n\t\x7d\n" ++
  "\tout := o.Out\n\to.done, o.Out = true, nil\n\treturn out, nil\n\x7d\n\n" ++
  "type multiRecv func() (interface\x7b\x7d, error)\n" ++
  "func (m multiRecv) Recv() (interface\x7b\x7d, error) \x7b\n\treturn m()\n\x7d\n\n"

/-- The body of the `range .GetMethod` of the function `Input`. -/
def goTmpl.inputCase (m : MethodDescriptorProto) : String :=
  "case \"" ++ m.GetName ++ "\": return " ++ trimLeftDot m.GetInputType ++ "\x7b\x7d\n\t"

/-- The branch of `if .GetServerStreaming` for a server-streaming method. -/
def goTmpl.streamingBody (m : MethodDescriptorProto) : String :=
  "recv, err := c." ++ printStringPtr m.Name ++ "(ctx, input, opts...)\n" ++
  "\t\tif err != nil \x7b\n\t\t\treturn nil, err\n\t\t\x7d\n" ++
  "\t\treturn multiRecv(func() (interface\x7b\x7d, error) \x7b return recv.Recv() \x7d), nil\n\t\t"

/-- The `else` branch, for a unary method. -/
def goTmpl.unaryBody (m : MethodDescriptorProto) : String :=
  "out, err := c." ++ printStringPtr m.Name ++ "(ctx, input, opts...)\n" ++
  "\t\treturn &onceRecv\x7bOut:out\x7d, err\n\t\t"

/-- The body of the `range .GetMethod` of the function `Call`. -/
def goTmpl.callCase (m : MethodDescriptorProto) : String :=
  "case \"" ++ m.GetName ++ "\":\n\t\tinput := in.(*" ++ trimLeftDot m.GetInputType ++ ")\n\t\t" ++
  (if m.GetServerStreaming then goTmpl.streamingBody m else goTmpl.unaryBody m) ++ "\n\t"

/-- The text that follows the cases of `Call`. -/
def goTmpl.callEnd : String :=
  "\n\t\x7d\n\treturn nil, errors.Errorf(\"name %q not found\", name)\n\x7d\n\n\n\n"

/-- The line of the header that carries the result of the template function `now`. -/
def goTmpl.timestampLine (now : String) : String := "//\tat   " ++ now ++ "\n"

/-- The execution of the template `goTmpl` on the data `d`; `now` is the result of the template
function `now`, that is of `time.Now().Format(time.RFC3339)`. -/
def goTmpl.Execute (now : String) (d : TemplateData) : String :=
  "// Generated with protoc-gen-grpcer\n//\tfrom \"" ++ d.ProtoFile ++ "\"\n" ++
  goTmpl.timestampLine now ++
  "//\n// DO NOT EDIT!\n\npackage " ++ d.Package ++ "\n\nimport (\n\t\"io\"\n" ++
  "\tcontext \"golang.org/x/net/context\"\n\tgrpc \"google.golang.org/grpc\"\n" ++
  "\terrors \"github.com/pkg/errors\"\n\tgprcer \"github.com/UNO-SOFT/gprcer\"\n\n" ++
  "\tpb \"" ++ d.Import ++ "\"\n\t" ++
  String.join (d.Dependencies.map (fun dep => "\"" ++ dep ++ "\"\n\t")) ++
  "\n)\n\ntype client struct \x7b\n\tpb." ++ d.Service.GetName ++ "Client\n\x7d\n" ++
  "func NewClient(cc *grpc.ClientConn) grpcer.Client \x7b\n" ++
  "\treturn client\x7b pb.New" ++ d.Service.GetName ++ "Client(cc) \x7d\n\x7d\n\n" ++
  goTmpl.receivers ++
  "func (c client) Input(name string) interface\x7b\x7d \x7b\n\tswitch name \x7b\n\t" ++
  String.join (d.Service.GetMethod.map goTmpl.inputCase) ++
  "\n\t\x7d\n\treturn nil\n\x7d\n\n" ++
  "func (c client) Call(name string, ctx context.Context, in interface\x7b\x7d, " ++
  "opts ...grpc.CallOption) (grpcer.Receiver, error) \x7b\n\tswitch name \x7b\n\t" ++
  String.join (d.Service.GetMethod.map goTmpl.callCase) ++
  goTmpl.callEnd

/-- The function `genGo`: the rendered text and the error of the template execution. On
descriptor values the execution meets no nil pointer, and the buffer it writes to does not fail,
so that the error is always nil (`none`). -/
def genGo (now : String) (destPkg protoFn : String) (svc : ServiceDescriptorProto)
    (dependencies : List String) : String × Option String :=
  let destPkg := if destPkg = "" then "main" else destPkg
  let d : TemplateData :=
    { ProtoFile := protoFn, Package := destPkg, Import := filepath.Dir protoFn,
      Dependencies := deps svc dependencies, Service := svc }
  (goTmpl.Execute now d, none)

/-! ## `Generate`: the needed types (gen.go, lines 99-113) -/

/-- The body of the loop over the methods of a root's services: the non-empty input and output
type names are entered with what `allTypes` holds for them, a nil descriptor (`none`) on a
miss. -/
def msgTypesStep (allTypes : GoMap DescriptorProto) (msgTypes : GoMap (Option DescriptorProto))
    (m : MethodDescriptorProto) : GoMap (Option DescriptorProto) :=
  let k := ""
  let msgTypes :=
    let kk := k ++ m.GetInputType
    if kk.length > k.length then msgTypes.set kk (allTypes.get? kk) else msgTypes
  let kk := k ++ m.GetOutputType
  if kk.length > k.length then msgTypes.set kk (allTypes.get? kk) else msgTypes

/-- The loops of `Generate` that fill `msgTypes`, for a root set and a type index: for every root,
every service and every method, in turn. -/
def msgTypesOf (roots : GoMap FileDescriptorProto) (allTypes : GoMap DescriptorProto) :
    GoMap (Option DescriptorProto) :=
  roots.values.foldl
    (fun acc root => root.GetService.foldl
      (fun acc svc => svc.GetMethod.foldl (msgTypesStep allTypes) acc) acc) []

/-- The map `msgTypes` of `Generate`. Nothing reads it afterwards. -/
def msgTypes (req : CodeGeneratorRequest) : GoMap (Option DescriptorProto) :=
  msgTypesOf (roots req) (allTypes req)

/-! ### Specification-side notions for the needed types -/

/-- The non-empty ones among the input type name and the output type name of a method. -/
def typeNames (m : MethodDescriptorProto) : List String :=
  [m.GetInputType, m.GetOutputType].filter (fun t => !decide (t = ""))

/-- The methods of all the services of all the roots. -/
def rootMethods (roots : GoMap FileDescriptorProto) : List MethodDescriptorProto :=
  roots.values.flatMap (fun root => root.GetService.flatMap (fun svc => svc.GetMethod))

/-! ## `Generate`: the rendering tasks and the response (gen.go, lines 115-144)

`Generate` starts one goroutine per root file and service and waits for all of them. What the
run-time system decides in a run is gathered in a `Schedule`, and the response is a function of
the request and the schedule:

* each task reads the clock on its own when it executes the template;
* the closures passed to `grp.Go` capture the loop variable `svc`, which the loop over the
  services of a root goes on assigning while the tasks run: the task created for the service at
  position `j` reads the service at a position from `j` up to the last one (the position `j`
  itself when every iteration has a variable of its own);
* the units are appended to `resp.File` under the mutex in the order in which the tasks reach
  it: any order can arise;
* `grp.Wait` returns the error of the failing task that reported first.

The order in which `range` visits the map `roots` only renumbers the tasks. -/

/-- The `protoc.CodeGeneratorResponse_File`: a generated unit. -/
structure CodeGeneratorResponse_File where
  Name : Option String
  Content : Option String
deriving DecidableEq, Repr

/-- The `protoc.CodeGeneratorResponse`. -/
structure CodeGeneratorResponse where
  Error : Option String
  File : List CodeGeneratorResponse_File
deriving DecidableEq, Repr

/-- The decisions of the run-time system in one run of `Generate`; tasks are numbered in the
order of their creation. -/
structure Schedule where
  /-- The formatted clock reading of task `i`. -/
  clock : Nat → String
  /-- The number of later assignments of the loop variable `svc` that task `i` observes. -/
  lag : Nat → Nat
  /-- The position at which the unit of task `i` stands among the units of the tasks
  `0, ..., i`. -/
  slot : Nat → Nat
  /-- The rank, among the failing tasks, of the one that reports first. -/
  first : Nat

/-- A rendering task: the root file and the position, among the services of the root, of the
service for which the task is created. -/
structure Task where
  root : FileDescriptorProto
  index : Nat
deriving DecidableEq, Repr

/-- The tasks that the loops over `roots` and over the services of each root create. -/
def tasks (roots : GoMap FileDescriptorProto) : List Task :=
  roots.values.flatMap (fun root => (List.range root.GetService.length).map (Task.mk root))

/-- The service that task `i` finds in the variable `svc`. -/
def observedService (sched : Schedule) (i : Nat) (t : Task) : ServiceDescriptorProto :=
  t.root.GetService.getD (min (t.index + sched.lag i) (t.root.GetService.length - 1))
    { Name := none, Method := [] }

/-- The destination name `destFn` of a unit. -/
def destFn (destDir pkg : String) : String :=
  filepath.Join [destDir, strings.TrimSuffix (filepath.Base pkg) ".proto" ++ ".grpcer.go"]

/-- The signature of `genGo`, with the clock reading as first argument. -/
abbrev Renderer :=
  String → String → String → ServiceDescriptorProto → List String → String × Option String

/-- The function passed to `grp.Go`: the unit that the task appends and the error it returns. -/
def runTask (render : Renderer) (destPkg destDir : String) (sched : Schedule) (i : Nat)
    (t : Task) : CodeGeneratorResponse_File × Option String :=
  let pkg := t.root.GetName
  let result := render (sched.clock i) destPkg pkg (observedService sched i t) t.root.GetDependency
  ({ Name := some (destFn destDir pkg), Content := some result.1 }, result.2)

/-- The results of the tasks, numbered from `i` on. -/
def runTasks (render : Renderer) (destPkg destDir : String) (sched : Schedule) :
    Nat → List Task → List (CodeGeneratorResponse_File × Option String)
  | _, [] => []
  | i, t :: ts =>
    runTask render destPkg destDir sched i t :: runTasks render destPkg destDir sched (i + 1) ts

/-- The list `l` with `a` put at position `n` (at the end when `n` is too large). -/
def insertAt {α : Type} (l : List α) (n : Nat) (a : α) : List α := l.take n ++ a :: l.drop n

/-- The list `resp.File` after the appends of the tasks numbered from `i` on. -/
def appendUnits (sched : Schedule) :
    Nat → List CodeGeneratorResponse_File → List CodeGeneratorResponse_File →
      List CodeGeneratorResponse_File
  | _, file, [] => file
  | i, file, u :: us => appendUnits sched (i + 1) (insertAt file (sched.slot i) u) us

/-- The result of `grp.Wait()`: nil when no task fails, otherwise the error that was reported
first. -/
def waitError (sched : Schedule) (errs : List String) : Option String :=
  match errs with
  | [] => none
  | e :: es => some ((e :: es).getD (sched.first % (es.length + 1)) e)

/-- The results of all the tasks of a request. -/
def taskResults (render : Renderer) (sched : Schedule) (req : CodeGeneratorRequest) :
    List (CodeGeneratorResponse_File × Option String) :=
  runTasks render (destPkg req) (destDir req) sched 0 (tasks (roots req))

/-- The function `Generate` for an arbitrary rendering function in the place of `genGo`: the
response it fills in and the error it returns, which is nil at its only `return`. -/
def GenerateWith (render : Renderer) (sched : Schedule) (req : CodeGeneratorRequest) :
    CodeGeneratorResponse × Option String :=
  let results := taskResults render sched req
  ({ File := appendUnits sched 0 [] (results.map Prod.fst),
     Error := waitError sched (results.filterMap Prod.snd) }, none)

/-- The function `Generate`. -/
def Generate (sched : Schedule) (req : CodeGeneratorRequest) :
    CodeGeneratorResponse × Option String :=
  GenerateWith genGo sched req

/-! ## The receiver `onceRecv` of the emitted text (gen.go, lines 192-203) -/

/-- The errors that a receiver returns. -/
inductive RecvError where
  | EOF
deriving DecidableEq, Repr

/-- The struct `onceRecv`; the interface value `Out` is `none` when nil. -/
structure onceRecv (α : Type) where
  Out : Option α
  done : Bool

/-- The method `(*onceRecv).Recv`: the receiver after the call, the value and the error. -/
def onceRecv.Recv {α : Type} (o : onceRecv α) : onceRecv α × Option α × Option RecvError :=
  if o.done then (o, none, some RecvError.EOF)
  else
    let out := o.Out
    ({ done := true, Out := none }, out, none)

/-- The results of `n` successive calls of `Recv`. -/
def onceRecv.recvs {α : Type} (o : onceRecv α) : Nat → List (Option α × Option RecvError)
  | 0 => []
  | n + 1 => (o.Recv).2 :: onceRecv.recvs (o.Recv).1 n

/-- The receiver `&onceRecv{Out:out}` that `Call` builds for a unary method. -/
def onceRecv.new {α : Type} (out : Option α) : onceRecv α := { Out := out, done := false }

/-! ## Requests up to their message types -/

/-- The file descriptor with its list of message types emptied. -/
def FileDescriptorProto.withoutMessageTypes (f : FileDescriptorProto) : FileDescriptorProto :=
  { f with MessageType := [] }

/-- The request with the lists of message types of all its files emptied: two requests are
equal except for the message types of their files when this gives the same request for both. -/
def CodeGeneratorRequest.withoutMessageTypes (r : CodeGeneratorRequest) :
    CodeGeneratorRequest :=
  { r with ProtoFile := r.ProtoFile.map FileDescriptorProto.withoutMessageTypes }

/-! ## basic_auth.go: the credential supplier

A `context.Context` is modelled by the chain of the key-value pairs that `context.WithValue` has
attached, the innermost first. -/

/-- A value of the empty interface: nil, a string, or a value of another dynamic type. -/
inductive GoValue where
  | nil
  | string (s : String)
  | other (tag : Nat)
deriving DecidableEq, Repr

/-- A context key: a value of the type `contextKey` of this package or a key of another type. -/
inductive ContextKey where
  | contextKey (s : String)
  | foreign (id : Nat)
deriving DecidableEq, Repr

/-- The constant `BasicAuthKey`. -/
def BasicAuthKey : ContextKey := ContextKey.contextKey "authorization-basic"

/-- A non-nil `context.Context`. -/
abbrev Context := List (ContextKey × GoValue)

/-- The method `ctx.Value(key)`: the value attached last for the key, nil when there is none. -/
def Context.Value (ctx : Context) (key : ContextKey) : GoValue :=
  match ctx with
  | [] => GoValue.nil
  | (k, v) :: parent => if k = key then v else Context.Value parent key

/-- Go `context.WithValue`. -/
def context.WithValue (parent : Context) (key : ContextKey) (val : GoValue) : Context :=
  (key, val) :: parent

/-- The function `WithBasicAuth`. -/
def WithBasicAuth (ctx : Context) (username password : String) : Context :=
  context.WithValue ctx BasicAuthKey (GoValue.string (username ++ ":" ++ password))

/-- The struct `basicAuthCreds`. -/
structure basicAuthCreds where
  up : String
deriving DecidableEq, Repr

/-- The function `NewBasicAuth`. -/
def NewBasicAuth (username password : String) : basicAuthCreds :=
  { up := username ++ ":" ++ password }

/-- The run-time panic of a failed type assertion. -/
inductive GoPanic where
  | interfaceConversion
deriving DecidableEq, Repr

/-- The type assertion `upI.(string)`: it panics when the dynamic type is not `string`. -/
def assertString : GoValue → Except GoPanic String
  | GoValue.string s => Except.ok s
  | _ => Except.error GoPanic.interfaceConversion

/-- The method `basicAuthCreds.GetRequestMetadata`: the map and the error it returns, or the
panic it ends in. -/
def basicAuthCreds.GetRequestMetadata (ba : basicAuthCreds) (ctx : Context)
    (_uri : List String) : Except GoPanic (GoMap String × Option String) :=
  let upI := ctx.Value BasicAuthKey
  match (if upI = GoValue.nil then Except.ok "" else assertString upI) with
  | Except.error p => Except.error p
  | Except.ok up =>
    let up := if up = "" then ba.up else up
    Except.ok ([("authorization", up)], none)

/-! ## Example inputs -/

/-- The two files of the example: both define `.pkg.Msg`, with different fields. -/
def exampleFileA : FileDescriptorProto :=
  { Name := some "a.proto", Package := some "pkg", Dependency := [],
    MessageType := [{ Name := some "Msg", Field := ["fromA"] }], Service := [] }

def exampleFileB : FileDescriptorProto :=
  { Name := some "b.proto", Package := some "pkg", Dependency := [],
    MessageType := [{ Name := some "Msg", Field := ["fromB"] }], Service := [] }

/-- A request whose supplied files repeat the name `a.proto`: the two files of that name are
visited before `b.proto` and exhaust the counter of roots still to find. -/
def duplicateNameRequest : CodeGeneratorRequest :=
  CodeGeneratorRequest.mk ["a.proto", "b.proto"] none
    [exampleFileB, exampleFileA, exampleFileA]

/-- The schedule in which the tasks run one after the other in the order of their creation,
each reading its own service, at one clock reading. -/
def sequentialSchedule : Schedule :=
  { clock := fun _ => "2016-11-04T10:00:00Z", lag := fun _ => 0, slot := fun i => i, first := 0 }

/-- A root file with two services: `Good` refers to types that the file defines, `Bad` has a
method whose input type `.pkg.Missing` no file defines. -/
def twoServiceFile : FileDescriptorProto :=
  { Name := some "dir/svc.proto", Package := some "pkg", Dependency := [],
    MessageType := [{ Name := some "Req", Field := [] }, { Name := some "Resp", Field := [] }],
    Service :=
      [{ Name := some "Good",
         Method := [{ Name := some "Hello", InputType := some ".pkg.Req",
                      OutputType := some ".pkg.Resp", ServerStreaming := none }] },
       { Name := some "Bad",
         Method := [{ Name := some "Oops", InputType := some ".pkg.Missing",
                      OutputType := some ".pkg.Resp", ServerStreaming := none }] }] }

/-- The request for `dir/svc.proto` with destination directory `out`. -/
def twoServiceRequest : CodeGeneratorRequest :=
  CodeGeneratorRequest.mk ["dir/svc.proto"] (some "path=out") [twoServiceFile]

/-- The two services of `twoServiceFile`. -/
def goodService : ServiceDescriptorProto :=
  { Name := some "Good",
    Method := [{ Name := some "Hello", InputType := some ".pkg.Req",
                 OutputType := some ".pkg.Resp", ServerStreaming := none }] }

def badService : ServiceDescriptorProto :=
  { Name := some "Bad",
    Method := [{ Name := some "Oops", InputType := some ".pkg.Missing",
                 OutputType := some ".pkg.Resp", ServerStreaming := none }] }

/-- The schedule with the clock readings of `sequentialSchedule` in which the task created first
reads the loop variable `svc` after the loop has moved on by one service. -/
def laggingSchedule : Schedule :=
  { clock := fun _ => "2016-11-04T10:00:00Z", lag := fun i => if i = 0 then 1 else 0,
    slot := fun i => i, first := 0 }

/-- A rendering function that fails on the service `Bad`. -/
def failingRenderer : Renderer :=
  fun _ _ _ svc _ => if svc.GetName = "Bad" then ("", some "render: bad service") else ("ok", none)

/-- The request for the one file `f`, with the given parameter string. -/
def singleFileRequest (param : Option String) (f : FileDescriptorProto) : CodeGeneratorRequest :=
  CodeGeneratorRequest.mk [f.GetName] param [f]

/-- The unit that a task of `Generate` appends for the service `svc` of the root `f` when it
reads the clock as `now`. -/
def unitFor (req : CodeGeneratorRequest) (now : String) (f : FileDescriptorProto)
    (svc : ServiceDescriptorProto) : CodeGeneratorResponse_File :=
  { Name := some (destFn (destDir req) f.GetName),
    Content := some (genGo now (destPkg req) f.GetName svc f.GetDependency).1 }

/-- A unary method and a server-streaming method. -/
def unaryMethod : MethodDescriptorProto :=
  { Name := some "Hello", InputType := some ".pkg.Req", OutputType := some ".pkg.Resp",
    ServerStreaming := none }

def streamingMethod : MethodDescriptorProto :=
  { Name := some "Watch", InputType := some ".pkg.Req", OutputType := some ".pkg.Resp",
    ServerStreaming := some true }

/-- A context in which a value that is not a string is attached under `BasicAuthKey`. -/
def foreignValueContext : Context := context.WithValue [] BasicAuthKey (GoValue.other 0)

/-! # Theorems -/

/-! ## Lemmas on maps -/

theorem GoMap.get?_set_self {V : Type} (m : GoMap V) (k : String) (v : V) :
    (m.set k v).get? k = some v := by
  simp [GoMap.set, GoMap.get?]

theorem GoMap.get?_filter_ne {V : Type} (m : GoMap V) (k k' : String) (h : k ≠ k') :
    GoMap.get? (m.filter (fun p => !decide (p.1 = k))) k' = GoMap.get? m k' := by
  induction m with
  | nil => rfl
  | cons p rest ih =>
    obtain ⟨a, b⟩ := p
    by_cases hak : a = k
    · subst hak
      simp [List.filter, GoMap.get?, h, ih]
    · by_cases hak' : a = k'
      · subst hak'
        simp [List.filter_cons, GoMap.get?, hak]
      · simp [List.filter_cons, GoMap.get?, hak, hak', ih]

theorem GoMap.get?_set_ne {V : Type} (m : GoMap V) (k k' : String) (v : V) (h : k ≠ k') :
    (m.set k v).get? k' = m.get? k' := by
  simp only [GoMap.set, GoMap.get?, h, if_false]
  exact GoMap.get?_filter_ne m k k' h

theorem GoMap.get?_set {V : Type} (m : GoMap V) (k k' : String) (v : V) :
    (m.set k v).get? k' = if k = k' then some v else m.get? k' := by
  by_cases h : k = k'
  · subst h; simp [GoMap.get?_set_self]
  · simp [h, GoMap.get?_set_ne]

theorem GoMap.get?_eq_none_iff {V : Type} (m : GoMap V) (k : String) :
    m.get? k = none ↔ k ∉ m.keys := by
  induction m with
  | nil => simp [GoMap.get?, GoMap.keys]
  | cons p rest ih =>
    obtain ⟨a, b⟩ := p
    by_cases hak : a = k
    · simp [GoMap.get?, GoMap.keys, hak]
    · have hka : ¬ k = a := fun h => hak h.symm
      simp [GoMap.get?, hak, hka, ih, GoMap.keys]

theorem GoMap.mem_keys_iff {V : Type} (m : GoMap V) (k : String) :
    k ∈ m.keys ↔ ∃ v, m.get? k = some v := by
  constructor
  · intro h
    cases hg : m.get? k with
    | none => exact absurd h ((GoMap.get?_eq_none_iff m k).mp hg)
    | some v => exact ⟨v, rfl⟩
  · rintro ⟨v, hv⟩
    by_contra hk
    rw [(GoMap.get?_eq_none_iff m k).mpr hk] at hv
    exact Option.noConfusion hv

/-! ## Lemmas on the type index -/

theorem resolveStep_allTypes (rootNames : List String) (st : Resolved)
    (f : FileDescriptorProto) :
    (resolveStep rootNames st f).allTypes = indexMessages f st.allTypes := by
  unfold resolveStep
  split
  · rfl
  · split <;> rfl

theorem resolve_cons (rootNames : List String) (f : FileDescriptorProto)
    (files : List FileDescriptorProto) :
    resolve rootNames (f :: files) = resolveStep rootNames (resolve rootNames files) f := by
  simp [resolve, List.foldl_append]

theorem resolve_nil (rootNames : List String) :
    resolve rootNames [] = { allTypes := [], roots := [], found := 0 } := rfl

theorem indexMessages_get?_aux (f : FileDescriptorProto) (key : String)
    (ms : List DescriptorProto) (acc : GoMap DescriptorProto) :
    (ms.foldl (fun acc m => acc.set (typeKey f m) m) acc).get? key =
      ((ms.filter (fun m => decide (typeKey f m = key))).getLast?).orElse
        (fun _ => acc.get? key) := by
  induction ms generalizing acc with
  | nil => simp
  | cons m ms ih =>
    rw [List.foldl_cons, ih]
    by_cases hk : typeKey f m = key
    · simp only [List.filter_cons, hk, decide_True, if_true, List.getLast?_cons]
      cases (ms.filter (fun m => decide (typeKey f m = key))).getLast? with
      | none => simp [← hk, GoMap.get?_set_self]
      | some d => simp
    · simp only [List.filter_cons, hk, decide_False, Bool.false_eq_true, if_false]
      rw [GoMap.get?_set_ne _ _ _ _ hk]

theorem indexMessages_get? (f : FileDescriptorProto) (key : String)
    (acc : GoMap DescriptorProto) :
    (indexMessages f acc).get? key = (definitionIn f key).orElse (fun _ => acc.get? key) :=
  indexMessages_get?_aux f key f.GetMessageType acc

/-- The type index resolves a name by the first file of the list that defines it. -/
theorem resolve_allTypes_get? (rootNames : List String) (files : List FileDescriptorProto)
    (key : String) :
    (resolve rootNames files).allTypes.get? key =
      files.findSome? (fun f => definitionIn f key) := by
  induction files with
  | nil => rfl
  | cons f files ih =>
    rw [resolve_cons, resolveStep_allTypes, indexMessages_get?, ih]
    cases h : definitionIn f key <;> simp [List.findSome?, h]

theorem definitionIn_eq_none_iff (f : FileDescriptorProto) (key : String) :
    definitionIn f key = none ↔ ¬ Defines f key := by
  simp [definitionIn, Defines, List.getLast?_eq_none_iff, List.filter_eq_nil_iff]

theorem definitionIn_some_mem (f : FileDescriptorProto) (key : String) (d : DescriptorProto)
    (h : definitionIn f key = some d) : d ∈ f.GetMessageType ∧ typeKey f d = key := by
  have hmem : d ∈ f.GetMessageType.filter (fun m => decide (typeKey f m = key)) :=
    List.mem_of_getLast?_eq_some h
  simpa using hmem

theorem findSome?_of_first {α β : Type} (φ : α → Option β) (l : List α) (i : Nat) (a : α)
    (b : β) (ha : l[i]? = some a) (hb : φ a = some b)
    (hmin : ∀ j c, j < i → l[j]? = some c → φ c = none) : l.findSome? φ = some b := by
  induction l generalizing i with
  | nil => simp at ha
  | cons x xs ih =>
    cases i with
    | zero =>
      simp only [List.getElem?_cons_zero, Option.some.injEq] at ha
      subst ha
      simp [List.findSome?, hb]
    | succ n =>
      have hx : φ x = none := hmin 0 x (Nat.succ_pos n) (by simp)
      simp only [List.findSome?, hx]
      refine ih n (by simpa using ha) ?_
      intro j c hj hc
      exact hmin (j + 1) c (Nat.succ_lt_succ hj) (by simpa using hc)

/-! ## Lemmas on the root set -/

theorem GoMap.mem_keys_set {V : Type} (m : GoMap V) (k k' : String) (v : V) :
    k' ∈ (m.set k v).keys ↔ k' = k ∨ k' ∈ m.keys := by
  rw [GoMap.mem_keys_iff, GoMap.mem_keys_iff, GoMap.get?_set]
  by_cases h : k = k'
  · simp [h]
  · have h' : ¬ k' = k := fun e => h e.symm
    simp [h, h']

theorem find?_rootName (rootNames : List String) (n : String) :
    rootNames.find? (fun root => decide (n = root)) = if n ∈ rootNames then some n else none := by
  induction rootNames with
  | nil => simp
  | cons r rs ih =>
    by_cases h : n = r
    · simp [List.find?, h]
    · simp [List.find?, h, ih]

/-- Every entry of the root map is a requested name mapped to a supplied file of that name. -/
theorem resolve_roots_sound (rootNames : List String) (files : List FileDescriptorProto)
    (k : String) (f : FileDescriptorProto) (h : (resolve rootNames files).roots.get? k = some f) :
    k ∈ rootNames ∧ f ∈ files ∧ f.GetName = k := by
  induction files with
  | nil => simp [resolve_nil, GoMap.get?] at h
  | cons g files ih =>
    rw [resolve_cons] at h
    unfold resolveStep at h
    split at h
    · obtain ⟨h1, h2, h3⟩ := ih h
      exact ⟨h1, List.mem_cons_of_mem _ h2, h3⟩
    · rw [find?_rootName] at h
      by_cases hg : g.GetName ∈ rootNames
      · simp only [hg, if_true] at h
        rw [GoMap.get?_set] at h
        by_cases hk : g.GetName = k
        · simp only [hk, if_true, Option.some.injEq] at h
          subst h
          exact ⟨hk ▸ hg, List.mem_cons_self _ _, hk⟩
        · simp only [hk, if_false] at h
          obtain ⟨h1, h2, h3⟩ := ih h
          exact ⟨h1, List.mem_cons_of_mem _ h2, h3⟩
      · simp only [hg, if_false] at h
        obtain ⟨h1, h2, h3⟩ := ih h
        exact ⟨h1, List.mem_cons_of_mem _ h2, h3⟩

/-- When the supplied files have pairwise distinct names, the counter `found` is the number of
visited files bearing a requested name, and the keys of `roots` are the requested names borne by
a visited file. -/
theorem resolve_roots_of_nodup (rootNames : List String) (files : List FileDescriptorProto)
    (hnd : (files.map FileDescriptorProto.GetName).Nodup) :
    (resolve rootNames files).found =
        (files.filter (fun f => decide (f.GetName ∈ rootNames))).length ∧
      ∀ k, k ∈ (resolve rootNames files).roots.keys ↔
        k ∈ rootNames ∧ k ∈ files.map FileDescriptorProto.GetName := by
  induction files with
  | nil => simp [resolve_nil, GoMap.keys]
  | cons g files ih =>
    rw [List.map_cons, List.nodup_cons] at hnd
    obtain ⟨hfound, hkeys⟩ := ih hnd.2
    rw [resolve_cons]
    unfold resolveStep
    split
    · rename_i hfull
      -- every requested name has been met: `g` bears none of them
      have hg : g.GetName ∉ rootNames := by
        intro hmem
        have hsub : (files.filter (fun f => decide (f.GetName ∈ rootNames))).map
            FileDescriptorProto.GetName ⊆ rootNames := by
          intro n hn
          obtain ⟨f, hf, rfl⟩ := List.mem_map.mp hn
          simpa using (List.mem_filter.mp hf).2
        have hnd' : ((files.filter (fun f => decide (f.GetName ∈ rootNames))).map
            FileDescriptorProto.GetName).Nodup :=
          hnd.2.sublist ((List.filter_sublist files).map _)
        have hperm := (List.subperm_of_subset hnd' hsub).perm_of_length_le
          (by rw [List.length_map, ← hfound, hfull])
        have : g.GetName ∈ (files.filter (fun f => decide (f.GetName ∈ rootNames))).map
            FileDescriptorProto.GetName := hperm.symm.subset hmem
        obtain ⟨f, hf, hname⟩ := List.mem_map.mp this
        exact hnd.1 (List.mem_map.mpr ⟨f, (List.mem_filter.mp hf).1, hname⟩)
      refine ⟨by simp [List.filter_cons, hg, hfound], fun k => ?_⟩
      simp only [hkeys, List.map_cons, List.mem_cons]
      constructor
      · rintro ⟨h1, h2⟩; exact ⟨h1, Or.inr h2⟩
      · rintro ⟨h1, h2 | h2⟩
        · exact absurd (h2 ▸ h1) hg
        · exact ⟨h1, h2⟩
    · rw [find?_rootName]
      by_cases hg : g.GetName ∈ rootNames
      · simp only [hg, if_true]
        refine ⟨by simp [List.filter_cons, hg, hfound], fun k => ?_⟩
        rw [GoMap.mem_keys_set, hkeys]
        simp only [List.map_cons, List.mem_cons]
        constructor
        · rintro (h | ⟨h1, h2⟩)
          · exact ⟨h ▸ hg, Or.inl h⟩
          · exact ⟨h1, Or.inr h2⟩
        · rintro ⟨h1, h2 | h2⟩
          · exact Or.inl h2
          · exact Or.inr ⟨h1, h2⟩
      · simp only [hg, if_false]
        refine ⟨by simp [List.filter_cons, hg, hfound], fun k => ?_⟩
        simp only [hkeys, List.map_cons, List.mem_cons]
        constructor
        · rintro ⟨h1, h2⟩; exact ⟨h1, Or.inr h2⟩
        · rintro ⟨h1, h2 | h2⟩
          · exact absurd (h2 ▸ h1) hg
          · exact ⟨h1, h2⟩

/-! ## Lemmas on the parameter string -/

theorem indexByte_go_none (l : List Char) (c : Char) :
    strings.IndexByte.go l c = none ↔ c ∉ l := by
  induction l with
  | nil => simp [strings.IndexByte.go]
  | cons x xs ih =>
    by_cases h : x = c
    · simp [strings.IndexByte.go, h]
    · have h' : ¬ c = x := fun e => h e.symm
      simp [strings.IndexByte.go, h, h', ih]

theorem indexByte_go_some (l : List Char) (c : Char) (i : Nat)
    (h : strings.IndexByte.go l c = some i) :
    c ∈ l ∧ l.take i = l.takeWhile (fun x => decide (x ≠ c)) ∧
      l.drop (i + 1) = (l.dropWhile (fun x => decide (x ≠ c))).drop 1 := by
  induction l generalizing i with
  | nil => simp [strings.IndexByte.go] at h
  | cons x xs ih =>
    by_cases hx : x = c
    · simp only [strings.IndexByte.go, hx, if_true, Option.some.injEq] at h
      subst h
      simp [hx, List.takeWhile, List.dropWhile]
    · simp only [strings.IndexByte.go, hx, if_false, Option.map_eq_some'] at h
      obtain ⟨j, hj, rfl⟩ := h
      obtain ⟨h1, h2, h3⟩ := ih j hj
      refine ⟨List.mem_cons_of_mem _ h1, ?_, ?_⟩
      · simp [List.takeWhile, hx, h2]
      · simp [List.dropWhile, hx, h3]

theorem string_mk_eq_iff (l : List Char) (s : String) : String.mk l = s ↔ l = s.data := by
  constructor
  · rintro rfl; rfl
  · intro h; rw [h]

/-- The loop body in the words of the specification. -/
theorem parameterStep_eq (dest : String × String) (elt : String) :
    parameterStep dest elt =
      if tokenHasKey "package" elt then (tokenValue elt, dest.2)
      else if tokenHasKey "path" elt then (dest.1, tokenValue elt)
      else dest := by
  unfold parameterStep strings.IndexByte
  cases h : strings.IndexByte.go elt.data '=' with
  | none =>
    have hmem := (indexByte_go_none _ _).mp h
    simp [tokenHasKey, hmem]
  | some i =>
    obtain ⟨hmem, htake, hdrop⟩ := indexByte_go_some _ _ _ h
    simp only [sliceTo, sliceFrom, tokenHasKey, tokenValue, hmem, decide_True, Bool.true_and,
      string_mk_eq_iff, htake, hdrop, decide_eq_true_eq]

theorem tokenHasKey_package_path (t : String) (h : tokenHasKey "package" t = true) :
    tokenHasKey "path" t = false := by
  simp only [tokenHasKey, Bool.and_eq_true, decide_eq_true_eq] at h
  simp only [tokenHasKey, h.2, Bool.and_eq_false_imp, decide_eq_true_eq]
  intro _
  decide

theorem lastValue_cons (key dflt : String) (t : String) (ts : List String) :
    lastValue key dflt (t :: ts) =
      lastValue key (if tokenHasKey key t then tokenValue t else dflt) ts := by
  unfold lastValue
  by_cases h : tokenHasKey key t = true
  · simp only [List.filter_cons, h, if_true, List.getLast?_cons]
    cases (ts.filter (tokenHasKey key)).getLast? <;> simp
  · simp only [List.filter_cons, h, if_false, Bool.false_eq_true]

theorem foldl_parameterStep (tokens : List String) (dest : String × String) :
    tokens.foldl parameterStep dest =
      (lastValue "package" dest.1 tokens, lastValue "path" dest.2 tokens) := by
  induction tokens generalizing dest with
  | nil => simp [lastValue]
  | cons t ts ih =>
    rw [List.foldl_cons, ih, lastValue_cons, lastValue_cons, parameterStep_eq]
    by_cases h1 : tokenHasKey "package" t = true
    · simp [h1, tokenHasKey_package_path t h1]
    · by_cases h2 : tokenHasKey "path" t = true
      · simp [h1, h2]
      · simp [h1, h2]

/-! ## Lemmas on the dependency pruner -/

theorem takeWhile_ne_of_not_mem (l : List Char) (c : Char) (h : c ∉ l) :
    l.takeWhile (fun x => decide (x ≠ c)) = l := by
  rw [List.takeWhile_eq_self_iff]
  intro x hx
  simp only [ne_eq, decide_eq_true_eq]
  rintro rfl
  exact h hx

theorem splitN2_head (rest : List Char) :
    (strings.SplitN2 ⟨rest⟩ '.').headD "" =
      ⟨rest.takeWhile (fun c => decide (c ≠ '.'))⟩ := by
  unfold strings.SplitN2 strings.IndexByte
  cases h : strings.IndexByte.go rest '.' with
  | none =>
    simp only [h, List.headD_cons]
    rw [takeWhile_ne_of_not_mem rest '.' ((indexByte_go_none _ _).mp h)]
  | some i =>
    simp only [h, List.headD_cons, sliceTo]
    rw [(indexByte_go_some _ _ _ h).2.1]

theorem neededStep_aux (acc : GoMap Unit) (t : String) :
    (if !strings.HasPrefix t "." then acc
      else acc.set ((strings.SplitN2 (sliceFrom t 1) '.').headD "") ()) =
      match packageSegment t with
      | some seg => acc.set seg ()
      | none => acc := by
  have hdata : ("." : String).data = ['.'] := rfl
  obtain ⟨l⟩ := t
  cases l with
  | nil => simp [strings.HasPrefix, hdata, List.isPrefixOf, packageSegment]
  | cons c rest =>
    by_cases hc : c = '.'
    · subst hc
      have hsplit := splitN2_head rest
      simp only [strings.HasPrefix, hdata, List.isPrefixOf, beq_self_eq_true, Bool.true_and,
        Bool.not_true, Bool.false_eq_true, if_false, packageSegment, sliceFrom, List.drop_one,
        List.tail_cons, hsplit]
    · have hc' : ¬ '.' = c := fun e => hc e.symm
      have hpre : strings.HasPrefix ⟨c :: rest⟩ "." = false := by
        simp [strings.HasPrefix, hdata, List.isPrefixOf, hc']
      have hseg : packageSegment ⟨c :: rest⟩ = none := by
        unfold packageSegment
        split
        · rename_i heq
          simp only [List.cons.injEq] at heq
          exact absurd heq.1 hc
        · rfl
      simp [hpre, hseg]

/-- The loop body of `needed` in the words of the specification. -/
theorem neededStep_eq (acc : GoMap Unit) (m : MethodDescriptorProto) :
    neededStep acc m =
      match packageSegment m.GetInputType with
      | some seg => acc.set seg ()
      | none => acc :=
  neededStep_aux acc m.GetInputType

theorem foldl_neededStep_keys (ms : List MethodDescriptorProto) (acc : GoMap Unit)
    (k : String) :
    k ∈ (ms.foldl neededStep acc).keys ↔
      k ∈ acc.keys ∨ k ∈ ms.filterMap (fun m => packageSegment m.GetInputType) := by
  induction ms generalizing acc with
  | nil => simp
  | cons m ms ih =>
    rw [List.foldl_cons, ih, neededStep_eq]
    cases h : packageSegment m.GetInputType with
    | none => simp [List.filterMap_cons, h]
    | some seg =>
      simp only [List.filterMap_cons, h, List.mem_cons, GoMap.mem_keys_set]
      tauto

theorem needed_keys (svc : ServiceDescriptorProto) (k : String) :
    k ∈ (needed svc).keys ↔ k ∈ neededPackages svc := by
  unfold needed neededPackages
  rw [foldl_neededStep_keys]
  simp [GoMap.keys]

theorem foldl_depsStep (n : GoMap Unit) (dependencies acc : List String) :
    dependencies.foldl (depsStep n) acc =
      acc ++ (dependencies.map filepath.Dir).filter
        (fun k => decide (filepath.Base k ∈ n.keys)) := by
  induction dependencies generalizing acc with
  | nil => simp
  | cons dep rest ih =>
    rw [List.foldl_cons, ih]
    unfold depsStep
    cases h : n.get? (filepath.Base (filepath.Dir dep)) with
    | none =>
      have hk := (GoMap.get?_eq_none_iff _ _).mp h
      simp [List.filter_cons, hk, h]
    | some u =>
      have hk := (GoMap.mem_keys_iff _ _).mpr ⟨u, h⟩
      simp [List.filter_cons, hk, h]

theorem deps_eq_prunedDirectories (svc : ServiceDescriptorProto) (dependencies : List String) :
    deps svc dependencies = prunedDirectories svc dependencies := by
  unfold deps prunedDirectories
  rw [foldl_depsStep, List.nil_append]
  congr 1
  funext k
  simp only [needed_keys]

/-- The set `needed` is a function of the sequence of input type names. -/
theorem needed_eq_foldl_inputTypes (svc : ServiceDescriptorProto) :
    needed svc =
      (svc.GetMethod.map MethodDescriptorProto.GetInputType).foldl
        (fun (acc : GoMap Unit) t => match packageSegment t with
          | some seg => GoMap.set acc seg ()
          | none => acc) [] := by
  unfold needed
  rw [List.foldl_map]
  congr 1
  funext acc m
  exact neededStep_eq acc m

/-! ## Lemmas on the tasks and the response -/

theorem insertAt_perm {α : Type} (l : List α) (n : Nat) (a : α) :
    (insertAt l n a).Perm (a :: l) := by
  unfold insertAt
  refine List.perm_middle.trans ?_
  rw [List.take_append_drop]

theorem appendUnits_perm (sched : Schedule) (us : List CodeGeneratorResponse_File) (i : Nat)
    (file : List CodeGeneratorResponse_File) :
    (appendUnits sched i file us).Perm (file ++ us) := by
  induction us generalizing i file with
  | nil => simp [appendUnits]
  | cons u us ih =>
    unfold appendUnits
    refine (ih (i + 1) _).trans ?_
    refine ((insertAt_perm file (sched.slot i) u).append_right us).trans ?_
    exact (@List.perm_middle _ u file us).symm

theorem runTasks_length (render : Renderer) (pkg dir : String) (sched : Schedule)
    (ts : List Task) (i : Nat) : (runTasks render pkg dir sched i ts).length = ts.length := by
  induction ts generalizing i with
  | nil => rfl
  | cons t ts ih => simp [runTasks, ih]

theorem mem_runTasks (render : Renderer) (pkg dir : String) (sched : Schedule)
    (ts : List Task) (i : Nat) (r : CodeGeneratorResponse_File × Option String)
    (h : r ∈ runTasks render pkg dir sched i ts) :
    ∃ j, ∃ t ∈ ts, r = runTask render pkg dir sched j t := by
  induction ts generalizing i with
  | nil => simp [runTasks] at h
  | cons t ts ih =>
    simp only [runTasks, List.mem_cons] at h
    rcases h with h | h
    · exact ⟨i, t, List.mem_cons_self _ _, h⟩
    · obtain ⟨j, t', ht', hr⟩ := ih (i + 1) h
      exact ⟨j, t', List.mem_cons_of_mem _ ht', hr⟩

theorem runTasks_names (render : Renderer) (pkg dir : String) (sched : Schedule)
    (ts : List Task) (i : Nat) :
    (runTasks render pkg dir sched i ts).map (fun r => r.1.Name) =
      ts.map (fun t => some (destFn dir t.root.GetName)) := by
  induction ts generalizing i with
  | nil => rfl
  | cons t ts ih => simp [runTasks, runTask, ih]

theorem tasks_length (roots : GoMap FileDescriptorProto) :
    (tasks roots).length = (roots.values.map (fun root => root.GetService.length)).sum := by
  unfold tasks
  induction roots.values with
  | nil => rfl
  | cons root rest ih => simp [List.flatMap_cons, ih]

theorem mem_tasks (roots : GoMap FileDescriptorProto) (t : Task) (h : t ∈ tasks roots) :
    t.root ∈ roots.values ∧ t.index < t.root.GetService.length := by
  unfold tasks at h
  simp only [List.mem_flatMap, List.mem_map, List.mem_range] at h
  obtain ⟨root, hroot, j, hj, rfl⟩ := h
  exact ⟨hroot, hj⟩

theorem waitError_nil (sched : Schedule) : waitError sched [] = none := rfl

theorem waitError_mem (sched : Schedule) (errs : List String) (h : errs ≠ []) :
    ∃ e ∈ errs, waitError sched errs = some e := by
  cases errs with
  | nil => exact absurd rfl h
  | cons e es =>
    refine ⟨(e :: es).getD (sched.first % (es.length + 1)) e, ?_, rfl⟩
    have hlt : sched.first % (es.length + 1) < (e :: es).length := by
      simpa using Nat.mod_lt sched.first (Nat.succ_pos es.length)
    rw [List.getD_eq_getElem _ _ hlt]
    exact List.getElem_mem _

theorem generateWith_file_perm (render : Renderer) (sched : Schedule)
    (req : CodeGeneratorRequest) :
    (GenerateWith render sched req).1.File.Perm ((taskResults render sched req).map Prod.fst) := by
  simpa [GenerateWith] using appendUnits_perm sched ((taskResults render sched req).map Prod.fst)
    0 []

theorem genGo_error (now pkg protoFn : String) (svc : ServiceDescriptorProto)
    (dependencies : List String) : (genGo now pkg protoFn svc dependencies).2 = none := rfl

theorem taskResults_genGo_error (sched : Schedule) (req : CodeGeneratorRequest) :
    (taskResults genGo sched req).filterMap Prod.snd = [] := by
  rw [List.filterMap_eq_nil_iff]
  intro r hr
  obtain ⟨j, t, _, rfl⟩ := mem_runTasks _ _ _ _ _ _ _ hr
  rfl

theorem roots_singleFileRequest (param : Option String) (f : FileDescriptorProto) :
    roots (singleFileRequest param f) = [(f.GetName, f)] := by
  simp [roots, singleFileRequest, resolve, resolveStep, CodeGeneratorRequest.GetFileToGenerate,
    CodeGeneratorRequest.GetProtoFile, GoMap.set]

theorem taskResults_singleFileRequest (sched : Schedule) (param : Option String)
    (f : FileDescriptorProto) (s₁ s₂ : ServiceDescriptorProto) (hsvc : f.GetService = [s₁, s₂]) :
    taskResults genGo sched (singleFileRequest param f) =
      [runTask genGo (destPkg (singleFileRequest param f)) (destDir (singleFileRequest param f))
          sched 0 ⟨f, 0⟩,
        runTask genGo (destPkg (singleFileRequest param f)) (destDir (singleFileRequest param f))
          sched 1 ⟨f, 1⟩] := by
  have ht : tasks (roots (singleFileRequest param f)) = [⟨f, 0⟩, ⟨f, 1⟩] := by
    rw [roots_singleFileRequest]
    simp [tasks, GoMap.values, hsvc, List.range_succ]
  rw [taskResults, ht]
  rfl

/-! ## Lemmas on the needed types -/

theorem allTypes_mem_keys (req : CodeGeneratorRequest) (k : String) :
    k ∈ (allTypes req).keys ↔ ∃ f ∈ req.GetProtoFile, Defines f k := by
  rw [GoMap.mem_keys_iff]
  unfold allTypes
  rw [resolve_allTypes_get?]
  constructor
  · rintro ⟨d, hd⟩
    obtain ⟨f, hf, hfd⟩ := List.exists_of_findSome?_eq_some hd
    refine ⟨f, hf, ?_⟩
    by_contra hnot
    rw [(definitionIn_eq_none_iff f k).mpr hnot] at hfd
    exact Option.noConfusion hfd
  · rintro ⟨f, hf, hdef⟩
    cases h : List.findSome? (fun f => definitionIn f k) req.GetProtoFile with
    | some d => exact ⟨d, rfl⟩
    | none =>
      rw [List.findSome?_eq_none_iff] at h
      exact absurd hdef ((definitionIn_eq_none_iff f k).mp (h f hf))

theorem string_length_pos_iff (t : String) : 0 < t.length ↔ t ≠ "" := by
  obtain ⟨l⟩ := t
  cases l with
  | nil => simp [String.length]
  | cons c cs =>
    simp only [String.length, List.length_cons, Nat.succ_pos, true_iff]
    intro h
    exact List.noConfusion (congrArg String.data h)

/-- The loop body of `msgTypes` enters the non-empty type names of the method. -/
theorem msgTypesStep_eq (idx : GoMap DescriptorProto) (acc : GoMap (Option DescriptorProto))
    (m : MethodDescriptorProto) :
    msgTypesStep idx acc m =
      (typeNames m).foldl (fun a kk => GoMap.set a kk (idx.get? kk)) acc := by
  unfold msgTypesStep typeNames
  simp only [String.empty_append, gt_iff_lt]
  have hlen : ("" : String).length = 0 := rfl
  rw [hlen]
  by_cases hi : m.GetInputType = "" <;> by_cases ho : m.GetOutputType = ""
  · have h1 : ¬ 0 < m.GetInputType.length := by rw [string_length_pos_iff]; simp [hi]
    have h2 : ¬ 0 < m.GetOutputType.length := by rw [string_length_pos_iff]; simp [ho]
    simp [h1, h2, hi, ho, List.filter_cons]
  · have h1 : ¬ 0 < m.GetInputType.length := by rw [string_length_pos_iff]; simp [hi]
    have h2 : 0 < m.GetOutputType.length := (string_length_pos_iff _).mpr ho
    simp [h1, h2, hi, ho, List.filter_cons]
  · have h1 : 0 < m.GetInputType.length := (string_length_pos_iff _).mpr hi
    have h2 : ¬ 0 < m.GetOutputType.length := by rw [string_length_pos_iff]; simp [ho]
    simp [h1, h2, hi, ho, List.filter_cons]
  · have h1 : 0 < m.GetInputType.length := (string_length_pos_iff _).mpr hi
    have h2 : 0 < m.GetOutputType.length := (string_length_pos_iff _).mpr ho
    simp [h1, h2, hi, ho, List.filter_cons]

theorem foldl_set_get? {V : Type} (g : String → V) (names : List String) (acc : GoMap V)
    (k : String) :
    (names.foldl (fun a kk => GoMap.set a kk (g kk)) acc).get? k =
      if k ∈ names then some (g k) else acc.get? k := by
  induction names generalizing acc with
  | nil => simp
  | cons n names ih =>
    rw [List.foldl_cons, ih, GoMap.get?_set]
    by_cases hk : k ∈ names
    · simp [hk]
    · by_cases hn : n = k
      · subst hn; simp
      · have hn' : ¬ k = n := fun e => hn e.symm
        simp [hk, hn, hn']

theorem foldl_msgTypesStep (idx : GoMap DescriptorProto) (ms : List MethodDescriptorProto)
    (acc : GoMap (Option DescriptorProto)) :
    ms.foldl (msgTypesStep idx) acc =
      (ms.flatMap typeNames).foldl (fun a kk => GoMap.set a kk (idx.get? kk)) acc := by
  induction ms generalizing acc with
  | nil => rfl
  | cons m ms ih =>
    rw [List.foldl_cons, ih, msgTypesStep_eq, List.flatMap_cons, List.foldl_append]

theorem msgTypesOf_eq (roots : GoMap FileDescriptorProto) (idx : GoMap DescriptorProto) :
    msgTypesOf roots idx =
      ((rootMethods roots).flatMap typeNames).foldl
        (fun a kk => GoMap.set a kk (idx.get? kk)) [] := by
  unfold msgTypesOf rootMethods
  rw [← foldl_msgTypesStep]
  generalize ([] : GoMap (Option DescriptorProto)) = acc
  induction roots.values generalizing acc with
  | nil => rfl
  | cons root rest ih =>
    rw [List.foldl_cons, ih, List.flatMap_cons, List.foldl_append]
    congr 1
    generalize root.GetService = svcs
    induction svcs generalizing acc with
    | nil => rfl
    | cons svc svcs ihs => rw [List.foldl_cons, ihs, List.flatMap_cons, List.foldl_append]

theorem mem_rootMethods_typeNames (roots : GoMap FileDescriptorProto) (k : String) :
    k ∈ (rootMethods roots).flatMap typeNames ↔
      k ≠ "" ∧ ∃ root ∈ roots.values, ∃ svc ∈ root.GetService, ∃ m ∈ svc.GetMethod,
        m.GetInputType = k ∨ m.GetOutputType = k := by
  simp only [rootMethods, typeNames, List.mem_flatMap, List.mem_filter, List.mem_cons,
    List.mem_singleton, List.not_mem_nil, or_false, Bool.not_eq_true', decide_eq_false_iff_not]
  constructor
  · rintro ⟨m, ⟨root, hroot, svc, hsvc, hm⟩, hk, hne⟩
    refine ⟨hne, root, hroot, svc, hsvc, m, hm, ?_⟩
    rcases hk with h | h
    · exact Or.inl h.symm
    · exact Or.inr h.symm
  · rintro ⟨hne, root, hroot, svc, hsvc, m, hm, hk⟩
    refine ⟨m, ⟨root, hroot, svc, hsvc, hm⟩, ?_, hne⟩
    rcases hk with h | h
    · exact Or.inl h.symm
    · exact Or.inr h.symm

/-! ## Lemmas on the credential supplier -/

theorem credential_ne_empty (u p : String) : u ++ ":" ++ p ≠ "" := by
  intro h
  have hd := congrArg String.data h
  simp only [String.data_append] at hd
  have hlen := congrArg List.length hd
  have hc : (":" : String).data.length = 1 := rfl
  have he : ("" : String).data.length = 0 := rfl
  simp only [List.length_append, hc, he] at hlen
  omega

theorem getRequestMetadata_string (ba : basicAuthCreds) (ctx : Context) (uri : List String)
    (s : String) (h : ctx.Value BasicAuthKey = GoValue.string s) :
    ba.GetRequestMetadata ctx uri =
      Except.ok ([("authorization", if s = "" then ba.up else s)], none) := by
  simp [basicAuthCreds.GetRequestMetadata, h, assertString]

theorem getRequestMetadata_nil (ba : basicAuthCreds) (ctx : Context) (uri : List String)
    (h : ctx.Value BasicAuthKey = GoValue.nil) :
    ba.GetRequestMetadata ctx uri = Except.ok ([("authorization", ba.up)], none) := by
  simp [basicAuthCreds.GetRequestMetadata, h]

/-! ## Lemmas on the rendered text -/

theorem string_foldl_append (l : List String) (acc : String) :
    l.foldl (fun r s => r ++ s) acc = acc ++ l.foldl (fun r s => r ++ s) "" := by
  induction l generalizing acc with
  | nil => simp
  | cons x xs ih =>
    rw [List.foldl_cons, ih, List.foldl_cons, ih ("" ++ x), String.empty_append,
      String.append_assoc]

theorem string_join_append (l₁ l₂ : List String) :
    String.join (l₁ ++ l₂) = String.join l₁ ++ String.join l₂ := by
  unfold String.join
  rw [List.foldl_append, string_foldl_append]

theorem string_join_cons (x : String) (xs : List String) :
    String.join (x :: xs) = x ++ String.join xs := by
  unfold String.join
  rw [List.foldl_cons, string_foldl_append, String.empty_append]

/-- The text of every element of a list stands, whole, in the concatenation of the texts. -/
theorem string_join_map_mem {α : Type} (f : α → String) (l : List α) (a : α) (h : a ∈ l) :
    ∃ pre post, String.join (l.map f) = pre ++ f a ++ post := by
  obtain ⟨l₁, l₂, rfl⟩ := List.append_of_mem h
  refine ⟨String.join (l₁.map f), String.join (l₂.map f), ?_⟩
  rw [List.map_append, List.map_cons, string_join_append, string_join_cons,
    String.append_assoc]

/-! ## Lemmas on the independence from the message types -/

theorem resolve_withoutMessageTypes (rootNames : List String)
    (files : List FileDescriptorProto) :
    (resolve rootNames (files.map FileDescriptorProto.withoutMessageTypes)).roots =
        (resolve rootNames files).roots.map
          (fun p => (p.1, FileDescriptorProto.withoutMessageTypes p.2)) ∧
      (resolve rootNames (files.map FileDescriptorProto.withoutMessageTypes)).found =
        (resolve rootNames files).found := by
  induction files with
  | nil => exact ⟨rfl, rfl⟩
  | cons f files ih =>
    obtain ⟨hroots, hfound⟩ := ih
    rw [List.map_cons, resolve_cons, resolve_cons]
    unfold resolveStep
    rw [hfound]
    have hname : (FileDescriptorProto.withoutMessageTypes f).GetName = f.GetName := rfl
    split
    · exact ⟨hroots, rfl⟩
    · rw [hname]
      split
      · refine ⟨?_, rfl⟩
        simp only [GoMap.set, hroots, List.map_cons, List.filter_map]
        rfl
      · exact ⟨hroots, rfl⟩

theorem tasks_map_withoutMessageTypes (m : GoMap FileDescriptorProto) :
    tasks (m.map (fun p => (p.1, FileDescriptorProto.withoutMessageTypes p.2))) =
      (tasks m).map (fun t => Task.mk (FileDescriptorProto.withoutMessageTypes t.root) t.index) := by
  unfold tasks GoMap.values
  induction m with
  | nil => rfl
  | cons p rest ih =>
    simp only [List.map_cons, List.flatMap_cons, List.map_append, List.map_map] at ih ⊢
    rw [ih]
    rfl

/-- The result of a task is a function of the clock reading and of the lag of the task, and
does not look at the message types of the root. -/
theorem runTasks_congr (render : Renderer) (pkg dir : String) (sched₁ sched₂ : Schedule)
    (hclock : ∀ i, sched₁.clock i = sched₂.clock i) (hlag : ∀ i, sched₁.lag i = sched₂.lag i)
    (ts : List Task) (i : Nat) :
    runTasks render pkg dir sched₁ i
        (ts.map (fun t => Task.mk (FileDescriptorProto.withoutMessageTypes t.root) t.index)) =
      runTasks render pkg dir sched₂ i ts := by
  induction ts generalizing i with
  | nil => rfl
  | cons t ts ih =>
    simp only [List.map_cons, runTasks, ih]
    congr 1
    simp only [runTask, observedService, hclock, hlag]
    rfl

theorem taskResults_withoutMessageTypes (render : Renderer) (sched₁ sched₂ : Schedule)
    (hclock : ∀ i, sched₁.clock i = sched₂.clock i) (hlag : ∀ i, sched₁.lag i = sched₂.lag i)
    (req : CodeGeneratorRequest) :
    taskResults render sched₁ req.withoutMessageTypes = taskResults render sched₂ req := by
  have hroots : roots req.withoutMessageTypes =
      (roots req).map (fun p => (p.1, FileDescriptorProto.withoutMessageTypes p.2)) :=
    (resolve_withoutMessageTypes req.GetFileToGenerate req.GetProtoFile).1
  unfold taskResults
  rw [hroots, tasks_map_withoutMessageTypes]
  exact runTasks_congr render _ _ sched₁ sched₂ hclock hlag _ 0

/-- Under one schedule the response and the returned error are the same for two requests that
are equal except for the message types of their files; under two schedules with the same clock
readings and the same readings of the loop variable the units agree up to order. -/
theorem generate_eq_of_same_except_message_types (sched₁ sched₂ : Schedule)
    (req₁ req₂ : CodeGeneratorRequest)
    (h : req₁.withoutMessageTypes = req₂.withoutMessageTypes) :
    Generate sched₁ req₁ = Generate sched₁ req₂ ∧
    ((∀ i, sched₁.clock i = sched₂.clock i) → (∀ i, sched₁.lag i = sched₂.lag i) →
      (Generate sched₁ req₁).1.File.Perm (Generate sched₂ req₂).1.File ∧
        (Generate sched₁ req₁).1.Error = (Generate sched₂ req₂).1.Error) := by
  have hsame : ∀ (s s' : Schedule), (∀ i, s.clock i = s'.clock i) →
      (∀ i, s.lag i = s'.lag i) →
      taskResults genGo s req₁ = taskResults genGo s' req₂ := by
    intro s s' hc hl
    rw [← taskResults_withoutMessageTypes genGo s s (fun _ => rfl) (fun _ => rfl) req₁, h,
      taskResults_withoutMessageTypes genGo s s' hc hl req₂]
  constructor
  · simp only [Generate, GenerateWith, hsame sched₁ sched₁ (fun _ => rfl) (fun _ => rfl)]
  · intro hc hl
    constructor
    · refine (generateWith_file_perm genGo sched₁ req₁).trans ?_
      rw [hsame sched₁ sched₂ hc hl]
      exact (generateWith_file_perm genGo sched₂ req₂).symm
    · simp [Generate, GenerateWith, taskResults_genGo_error, waitError_nil]

theorem string_append_left_cancel (a b c : String) (h : a ++ b = a ++ c) : b = c := by
  have hd := congrArg String.data h
  simp only [String.data_append, List.append_cancel_left_eq] at hd
  exact String.ext hd

theorem string_append_ne_of_head_ne (a b r₁ r₂ : String) (c₁ c₂ : Char) (l₁ l₂ : List Char)
    (ha : a.data = c₁ :: l₁) (hb : b.data = c₂ :: l₂) (hne : c₁ ≠ c₂) : a ++ r₁ ≠ b ++ r₂ := by
  intro h
  have hd := congrArg String.data h
  rw [String.data_append, String.data_append, ha, hb] at hd
  exact hne (List.cons.inj hd).1

/-- The renderings of `Good` and of `Bad` differ: after the common text up to `pb.` the one goes
on with `G` and the other with `B`. -/
theorem genGo_good_ne_bad (now pkg protoFn : String) :
    (genGo now pkg protoFn goodService []).1 ≠ (genGo now pkg protoFn badService []).1 := by
  intro h
  simp only [genGo, goTmpl.Execute, deps, List.foldl_nil, List.map_nil, String.append_assoc] at h
  iterate 14 replace h := string_append_left_cancel _ _ _ h
  exact string_append_ne_of_head_ne _ _ _ _ 'G' 'B' ['o', 'o', 'd'] ['a', 'd'] rfl rfl
    (by decide) h

/-- When every task reads its own service, the rendering of `Good` is a unit of the response. -/
theorem goodUnit_mem_sequential :
    unitFor twoServiceRequest "2016-11-04T10:00:00Z" twoServiceFile goodService ∈
      (Generate sequentialSchedule twoServiceRequest).1.File := by
  have hperm := generateWith_file_perm genGo sequentialSchedule
    (singleFileRequest (some "path=out") twoServiceFile)
  rw [taskResults_singleFileRequest sequentialSchedule (some "path=out") twoServiceFile
    goodService badService rfl] at hperm
  exact hperm.symm.subset (List.mem_cons_self _ _)

/-- When the first task reads the loop variable one service late, both units are renderings of
`Bad` and the rendering of `Good` is no unit of the response. -/
theorem goodUnit_not_mem_lagging :
    unitFor twoServiceRequest "2016-11-04T10:00:00Z" twoServiceFile goodService ∉
      (Generate laggingSchedule twoServiceRequest.withoutMessageTypes).1.File := by
  intro hmem
  have hperm := generateWith_file_perm genGo laggingSchedule
    (singleFileRequest (some "path=out") twoServiceFile.withoutMessageTypes)
  rw [taskResults_singleFileRequest laggingSchedule (some "path=out")
    twoServiceFile.withoutMessageTypes goodService badService rfl] at hperm
  have h := hperm.subset hmem
  simp only [List.map_cons, List.map_nil, List.mem_cons, List.not_mem_nil, or_false] at h
  have hne := genGo_good_ne_bad "2016-11-04T10:00:00Z"
    (destPkg twoServiceRequest) twoServiceFile.GetName
  rcases h with h | h
  · exact hne (Option.some.inj (congrArg CodeGeneratorResponse_File.Content h))
  · exact hne (Option.some.inj (congrArg CodeGeneratorResponse_File.Content h))

/-! ## Lemmas on the receiver -/

theorem onceRecv.recvs_done {α : Type} (o : onceRecv α) (h : o.done = true) (n : Nat) :
    o.recvs n = List.replicate n (none, some RecvError.EOF) := by
  induction n with
  | zero => rfl
  | succ n ih => simp [onceRecv.recvs, onceRecv.Recv, h, ih, List.replicate_succ]

/-! ## The claims -/

/-- C1: for every list of files and every qualified name that some file defines, `allTypes` maps
the name to a descriptor of the defining file with the smallest position in the list (the file
visited last by the reverse loop), namely to the last message of that file bearing the name; and
for two files that both define the name, the descriptor of the file placed first is selected, so
that the other one is not whenever the two descriptors differ. -/
theorem allTypes_selects_first_defining_file :
    (∀ (req : CodeGeneratorRequest) (key : String) (i : Nat) (f : FileDescriptorProto),
      req.GetProtoFile[i]? = some f → Defines f key →
      (∀ j g, j < i → req.GetProtoFile[j]? = some g → ¬ Defines g key) →
      ∃ d, (allTypes req).get? key = some d ∧ definitionIn f key = some d ∧
        d ∈ f.GetMessageType ∧ typeKey f d = key) ∧
    (∀ (rootNames : List String) (param : Option String) (f₁ f₂ : FileDescriptorProto)
      (key : String) (d₁ d₂ : DescriptorProto),
      definitionIn f₁ key = some d₁ → definitionIn f₂ key = some d₂ →
      (allTypes (CodeGeneratorRequest.mk rootNames param [f₁, f₂])).get? key = some d₁ ∧
      (d₁ ≠ d₂ →
        (allTypes (CodeGeneratorRequest.mk rootNames param [f₁, f₂])).get? key ≠ some d₂)) := by
  constructor
  · intro req key i f hf hdef hmin
    cases hd : definitionIn f key with
    | none => exact absurd hdef ((definitionIn_eq_none_iff f key).mp hd)
    | some d =>
      refine ⟨d, ?_, rfl, definitionIn_some_mem f key d hd⟩
      unfold allTypes
      rw [resolve_allTypes_get?]
      exact findSome?_of_first _ _ i f d hf hd
        (fun j g hj hg => (definitionIn_eq_none_iff g key).mpr (hmin j g hj hg))
  · intro rootNames param f₁ f₂ key d₁ d₂ h₁ h₂
    have hget : (allTypes (CodeGeneratorRequest.mk rootNames param [f₁, f₂])).get? key =
        some d₁ := by
      unfold allTypes
      rw [resolve_allTypes_get?]
      simp [CodeGeneratorRequest.GetProtoFile, List.findSome?, h₁]
    refine ⟨hget, fun hne h => hne ?_⟩
    rw [hget] at h
    exact Option.some.inj h

/-- Witness for C1: with the files `[a.proto, b.proto]`, both defining `.pkg.Msg`, the index holds
the descriptor of `a.proto`. -/
theorem allTypes_selects_first_defining_file_witness :
    ∃ d, (allTypes (CodeGeneratorRequest.mk ["b.proto"] none
            [exampleFileA, exampleFileB])).get? ".pkg.Msg" = some d ∧
      definitionIn exampleFileA ".pkg.Msg" = some d ∧
      d ∈ exampleFileA.GetMessageType ∧ typeKey exampleFileA d = ".pkg.Msg" :=
  allTypes_selects_first_defining_file.1
    (CodeGeneratorRequest.mk ["b.proto"] none [exampleFileA, exampleFileB])
    ".pkg.Msg" 0 exampleFileA rfl
    ⟨{ Name := some "Msg", Field := ["fromA"] }, by decide, by decide⟩
    (fun j g hj => absurd hj (Nat.not_lt_zero j))

/-- C2, as stated, fails: every requested name is the name of a supplied file, yet the requested
name `b.proto` is not a key of the root set. -/
theorem roots_misses_requested_name :
    (∀ n ∈ duplicateNameRequest.GetFileToGenerate,
        ∃ f ∈ duplicateNameRequest.GetProtoFile, f.GetName = n) ∧
      "b.proto" ∈ duplicateNameRequest.GetFileToGenerate ∧
      "b.proto" ∉ (roots duplicateNameRequest).keys := by
  decide

/-- C2, amended: in every request each entry of the root set is a requested name mapped to a
supplied file descriptor bearing that name, so that the set contains no other file; and when the
supplied files have pairwise distinct names and every requested name is the name of a supplied
file, the keys of the root set are exactly the requested names. -/
theorem roots_exact_of_distinct_file_names (req : CodeGeneratorRequest) :
    (∀ k f, (roots req).get? k = some f →
        k ∈ req.GetFileToGenerate ∧ f ∈ req.GetProtoFile ∧ f.GetName = k) ∧
    ((req.GetProtoFile.map FileDescriptorProto.GetName).Nodup →
      (∀ n ∈ req.GetFileToGenerate, ∃ f ∈ req.GetProtoFile, f.GetName = n) →
      ∀ k, k ∈ (roots req).keys ↔ k ∈ req.GetFileToGenerate) := by
  refine ⟨fun k f h => resolve_roots_sound _ _ k f h, fun hnd hsub k => ?_⟩
  unfold roots
  rw [(resolve_roots_of_nodup _ _ hnd).2 k]
  constructor
  · exact fun h => h.1
  · intro h
    obtain ⟨f, hf, hname⟩ := hsub k h
    exact ⟨h, List.mem_map.mpr ⟨f, hf, hname⟩⟩

/-- Witness for C2: the files `[a.proto, b.proto]` with `b.proto` requested. -/
theorem roots_exact_of_distinct_file_names_witness :
    ∀ k, k ∈ (roots (CodeGeneratorRequest.mk ["b.proto"] none
        [exampleFileA, exampleFileB])).keys ↔ k ∈ ["b.proto"] :=
  (roots_exact_of_distinct_file_names
    (CodeGeneratorRequest.mk ["b.proto"] none [exampleFileA, exampleFileB])).2
    (by decide) (by decide)

/-- C3: for every service and every list of dependency file names, the list `deps` of `genGo` is,
in the original order, the list of the directories of the dependencies whose directory's base
name is a needed package, the keys of `needed` being exactly the first dot-separated segments,
after the leading `.`, of the input type names that begin with `.`; for one method with input
type `.pkgA.Req` and the dependencies `pkgA/x.proto`, `pkgB/y.proto` the result is `[pkgA]`. -/
theorem deps_pruned_by_input_packages :
    (∀ (svc : ServiceDescriptorProto) (dependencies : List String),
      deps svc dependencies =
          (dependencies.map filepath.Dir).filter
            (fun k => decide (filepath.Base k ∈ neededPackages svc)) ∧
        ∀ k, k ∈ (needed svc).keys ↔
          ∃ m ∈ svc.GetMethod, packageSegment m.GetInputType = some k) ∧
    (∀ (svcName methodName outputType : Option String) (streaming : Option Bool),
      deps { Name := svcName,
             Method := [{ Name := methodName, InputType := some ".pkgA.Req",
                          OutputType := outputType, ServerStreaming := streaming }] }
        ["pkgA/x.proto", "pkgB/y.proto"] = ["pkgA"]) := by
  constructor
  · intro svc dependencies
    refine ⟨deps_eq_prunedDirectories svc dependencies, fun k => ?_⟩
    rw [needed_keys]
    simp [neededPackages]
  · intro svcName methodName outputType streaming
    rw [deps_eq_prunedDirectories]
    have hn : neededPackages (ServiceDescriptorProto.mk svcName
        [MethodDescriptorProto.mk methodName (some ".pkgA.Req") outputType streaming]) =
        ["pkgA"] := by
      simp only [neededPackages, ServiceDescriptorProto.GetMethod, List.filterMap_cons,
        MethodDescriptorProto.GetInputType, Option.getD_some, List.filterMap_nil]
      rfl
    unfold prunedDirectories
    rw [hn]
    decide

/-- C4: for every parameter string, the destination package is the value of the last
comma-separated token whose text before its first `=` is `package` (`main` when there is none)
and the destination directory is the value of the last token whose key is `path` (`.` when there
is none), whatever the other tokens are; `Generate` returns no error; and
`package=foo,path=bar,unknown=baz` gives the package `foo` and the directory `bar`. -/
theorem parameter_resolution (sched : Schedule) (req : CodeGeneratorRequest) :
    destPkg req = lastValue "package" "main" (strings.Split req.GetParameter ',') ∧
    destDir req = lastValue "path" "." (strings.Split req.GetParameter ',') ∧
    (Generate sched req).2 = none ∧
    parseParameter "package=foo,path=bar,unknown=baz" = ("foo", "bar") := by
  refine ⟨?_, ?_, rfl, by decide⟩
  · simp [destPkg, parseParameter, foldl_parameterStep]
  · simp [destDir, parseParameter, foldl_parameterStep]

/-- C5, as stated, fails: in the request for `dir/svc.proto` the service `Bad` has a method whose
input type `.pkg.Missing` is not in the type index while the types of `Good` are, and the
response has no error string and two units, not a non-empty error string and one unit. -/
theorem missing_type_not_reported :
    (allTypes twoServiceRequest).get? ".pkg.Missing" = none ∧
      (allTypes twoServiceRequest).get? ".pkg.Req" ≠ none ∧
      (allTypes twoServiceRequest).get? ".pkg.Resp" ≠ none ∧
      (Generate sequentialSchedule twoServiceRequest).1.Error = none ∧
      (Generate sequentialSchedule twoServiceRequest).1.File.length = 2 ∧
      ¬ ((∃ e, (Generate sequentialSchedule twoServiceRequest).1.Error = some e ∧ e ≠ "") ∧
        (Generate sequentialSchedule twoServiceRequest).1.File.length = 1) := by
  refine ⟨by decide, by decide, by decide, by decide, by decide, ?_⟩
  rintro ⟨_, h⟩
  revert h
  decide

/-- C5, amended: a request for a root file with two services makes `Generate` produce, under
every schedule and whether or not the types that the methods refer to are in the type index, a
response with no error string and with two units, both named after the root file; and when the
first task reads its own service, the units are the renderings of the two services. -/
theorem missing_type_is_silent (sched : Schedule) (param : Option String)
    (f : FileDescriptorProto) (s₁ s₂ : ServiceDescriptorProto)
    (hsvc : f.GetService = [s₁, s₂]) :
    (Generate sched (singleFileRequest param f)).1.Error = none ∧
    (Generate sched (singleFileRequest param f)).1.File.length = 2 ∧
    (∀ u ∈ (Generate sched (singleFileRequest param f)).1.File,
      u.Name = some (destFn (destDir (singleFileRequest param f)) f.GetName)) ∧
    (sched.lag 0 = 0 →
      (Generate sched (singleFileRequest param f)).1.File.Perm
        [unitFor (singleFileRequest param f) (sched.clock 0) f s₁,
         unitFor (singleFileRequest param f) (sched.clock 1) f s₂]) := by
  have hperm := generateWith_file_perm genGo sched (singleFileRequest param f)
  rw [taskResults_singleFileRequest sched param f s₁ s₂ hsvc] at hperm
  refine ⟨?_, ?_, ?_, ?_⟩
  · simp [Generate, GenerateWith, taskResults_genGo_error, waitError_nil]
  · simpa using hperm.length_eq
  · intro u hu
    have hu' := hperm.subset hu
    simp only [List.map_cons, List.map_nil, List.mem_cons, List.mem_singleton,
      List.not_mem_nil, or_false] at hu'
    rcases hu' with rfl | rfl <;> rfl
  · intro hlag
    have h0 : observedService sched 0 ⟨f, 0⟩ = s₁ := by
      simp [observedService, hsvc, hlag]
    have h1 : observedService sched 1 ⟨f, 1⟩ = s₂ := by
      simp [observedService, hsvc]
    simpa [Generate, runTask, unitFor, h0, h1] using hperm

/-- Witness for C5: the request for `dir/svc.proto`, whose service `Bad` refers to the type
`.pkg.Missing`, absent from the type index. -/
theorem missing_type_is_silent_witness :
    (allTypes (singleFileRequest (some "path=out") twoServiceFile)).get? ".pkg.Missing" = none ∧
      (Generate sequentialSchedule (singleFileRequest (some "path=out") twoServiceFile)).1.Error =
        none ∧
      (Generate sequentialSchedule
        (singleFileRequest (some "path=out") twoServiceFile)).1.File.length = 2 :=
  let h := missing_type_is_silent sequentialSchedule (some "path=out") twoServiceFile
    { Name := some "Good",
      Method := [{ Name := some "Hello", InputType := some ".pkg.Req",
                   OutputType := some ".pkg.Resp", ServerStreaming := none }] }
    { Name := some "Bad",
      Method := [{ Name := some "Oops", InputType := some ".pkg.Missing",
                   OutputType := some ".pkg.Resp", ServerStreaming := none }] }
    rfl
  ⟨by decide, h.1, h.2.1⟩

/-- C6: for every request and every schedule, the length of the file list of the response is the
sum, over the files of the root set, of the number of services each declares. -/
theorem one_unit_per_root_service (sched : Schedule) (req : CodeGeneratorRequest) :
    (Generate sched req).1.File.length =
      ((roots req).values.map (fun root => root.GetService.length)).sum := by
  rw [Generate, (generateWith_file_perm genGo sched req).length_eq, List.length_map, taskResults,
    runTasks_length, tasks_length]

/-- C7: the destination name of every unit of the response is the destination directory joined
with the base name of a root file's name, stripped of a trailing `.proto` and followed by
`.grpcer.go`; the names of the units are, up to order, those of the root files of the tasks;
the root `dir/svc.proto` with the path `out` gives `out/svc.grpcer.go`. -/
theorem unit_names (sched : Schedule) (req : CodeGeneratorRequest) :
    (∀ u ∈ (Generate sched req).1.File, ∃ root ∈ (roots req).values,
      u.Name = some (filepath.Join [destDir req,
        strings.TrimSuffix (filepath.Base root.GetName) ".proto" ++ ".grpcer.go"])) ∧
    ((Generate sched req).1.File.map (fun u => u.Name)).Perm
      ((tasks (roots req)).map (fun t => some (filepath.Join [destDir req,
        strings.TrimSuffix (filepath.Base t.root.GetName) ".proto" ++ ".grpcer.go"]))) ∧
    filepath.Join ["out", strings.TrimSuffix (filepath.Base "dir/svc.proto") ".proto" ++
      ".grpcer.go"] = "out/svc.grpcer.go" ∧
    (∀ u ∈ (Generate sched twoServiceRequest).1.File, u.Name = some "out/svc.grpcer.go") := by
  have hperm : ((Generate sched req).1.File.map (fun u => u.Name)).Perm
      ((tasks (roots req)).map (fun t => some (destFn (destDir req) t.root.GetName))) := by
    have h := (generateWith_file_perm genGo sched req).map (fun u => u.Name)
    rw [List.map_map] at h
    have hn := runTasks_names genGo (destPkg req) (destDir req) sched (tasks (roots req)) 0
    exact h.trans (by rw [← hn]; rfl)
  have hall : ∀ (r : CodeGeneratorRequest), ∀ u ∈ (Generate sched r).1.File,
      ∃ root ∈ (roots r).values, u.Name = some (destFn (destDir r) root.GetName) := by
    intro r u hu
    have hu' := (generateWith_file_perm genGo sched r).subset hu
    obtain ⟨res, hres, rfl⟩ := List.mem_map.mp hu'
    obtain ⟨j, t, ht, rfl⟩ := mem_runTasks _ _ _ _ _ _ _ hres
    exact ⟨t.root, (mem_tasks _ t ht).1, rfl⟩
  refine ⟨hall req, hperm, by decide, ?_⟩
  intro u hu
  obtain ⟨root, hroot, hname⟩ := hall twoServiceRequest u hu
  have hr : root = twoServiceFile := by
    have : (roots twoServiceRequest).values = [twoServiceFile] := by decide
    rw [this] at hroot
    simpa using hroot
  rw [hname, hr]
  decide

/-- C8: for every request, schedule and rendering function, `Generate` returns no error (so does
it with `genGo`); when no rendering task fails the error field of the response is unset, and
when some task fails the error field is the text of the failure of one of the tasks. -/
theorem generate_returns_nil (render : Renderer) (sched : Schedule)
    (req : CodeGeneratorRequest) :
    (GenerateWith render sched req).2 = none ∧ (Generate sched req).2 = none ∧
    ((∀ r ∈ taskResults render sched req, r.2 = none) →
      (GenerateWith render sched req).1.Error = none) ∧
    ((∃ r ∈ taskResults render sched req, r.2 ≠ none) →
      ∃ r ∈ taskResults render sched req, ∃ e, r.2 = some e ∧
        (GenerateWith render sched req).1.Error = some e) := by
  refine ⟨rfl, rfl, ?_, ?_⟩
  · intro h
    have hnil : (taskResults render sched req).filterMap Prod.snd = [] := by
      rw [List.filterMap_eq_nil_iff]
      intro r hr
      exact h r hr
    simp [GenerateWith, hnil, waitError_nil]
  · rintro ⟨r, hr, hne⟩
    obtain ⟨e, he⟩ := Option.ne_none_iff_exists'.mp hne
    have hne' : (taskResults render sched req).filterMap Prod.snd ≠ [] := by
      intro hnil
      rw [List.filterMap_eq_nil_iff] at hnil
      rw [hnil r hr] at he
      exact Option.noConfusion he
    obtain ⟨e', hmem, hw⟩ := waitError_mem sched _ hne'
    obtain ⟨r', hr', he'⟩ := List.mem_filterMap.mp hmem
    exact ⟨r', hr', e', he', by simp [GenerateWith, hw]⟩

/-- Witness for C8: with a rendering function that fails on the service `Bad` the error field
holds the text of a task's failure; with `genGo` no task fails and the field is unset. -/
theorem generate_returns_nil_witness :
    (∃ r ∈ taskResults failingRenderer sequentialSchedule twoServiceRequest, ∃ e,
        r.2 = some e ∧
          (GenerateWith failingRenderer sequentialSchedule twoServiceRequest).1.Error = some e) ∧
      (GenerateWith genGo sequentialSchedule twoServiceRequest).1.Error = none :=
  ⟨(generate_returns_nil failingRenderer sequentialSchedule twoServiceRequest).2.2.2 (by decide),
    (generate_returns_nil genGo sequentialSchedule twoServiceRequest).2.2.1 (by decide)⟩

/-- C9: two services whose methods have the same sequence of input type names give the same
pruned dependency list, for every dependency list, whatever their output types, method names and
streaming flags are. -/
theorem deps_independent_of_output_types (svc₁ svc₂ : ServiceDescriptorProto)
    (dependencies : List String)
    (h : svc₁.GetMethod.map MethodDescriptorProto.GetInputType =
      svc₂.GetMethod.map MethodDescriptorProto.GetInputType) :
    deps svc₁ dependencies = deps svc₂ dependencies := by
  unfold deps
  rw [needed_eq_foldl_inputTypes svc₁, needed_eq_foldl_inputTypes svc₂, h]

/-- Witness for C9: a unary method with output `.pkgB.Resp` and a streaming method with output
`.pkgC.Other`, both with input `.pkgA.Req`. -/
theorem deps_independent_of_output_types_witness :
    deps { Name := some "S",
           Method := [{ Name := some "Get", InputType := some ".pkgA.Req",
                        OutputType := some ".pkgB.Resp", ServerStreaming := none }] }
        ["pkgA/x.proto", "pkgB/y.proto"] =
      deps { Name := some "T",
             Method := [{ Name := some "Watch", InputType := some ".pkgA.Req",
                          OutputType := some ".pkgC.Other", ServerStreaming := some true }] }
        ["pkgA/x.proto", "pkgB/y.proto"] :=
  deps_independent_of_output_types _ _ _ (by decide)

/-- C10: the receiver built for a unary call with the stored value `v` returns `v` without error
on its first `Recv` and nil with `io.EOF` on every later one, for every number of calls. -/
theorem onceRecv_yields_once {α : Type} (v : Option α) (n : Nat) :
    (onceRecv.new v).recvs (n + 1) =
      (v, none) :: List.replicate n (none, some RecvError.EOF) := by
  simp only [onceRecv.recvs, onceRecv.new, onceRecv.Recv, Bool.false_eq_true, if_false]
  rw [onceRecv.recvs_done _ rfl]

/-- C11: the text rendered by `genGo` ends with the header of `Call`, then one case per method
of the service, in order, then the return of the error `name %q not found`; the case of every
method stands whole in the text; the case of a method that is not server-streaming wraps the
result of the stub in `onceRecv`, and the case of a server-streaming method wraps the `Recv` of
the stream in `multiRecv`. -/
theorem call_cases (now pkg protoFn : String) (svc : ServiceDescriptorProto)
    (dependencies : List String) :
    (∃ head, (genGo now pkg protoFn svc dependencies).1 =
      head ++ "func (c client) Call(name string, ctx context.Context, in interface\x7b\x7d, " ++
        "opts ...grpc.CallOption) (grpcer.Receiver, error) \x7b\n\tswitch name \x7b\n\t" ++
        String.join (svc.GetMethod.map goTmpl.callCase) ++
        "\n\t\x7d\n\treturn nil, errors.Errorf(\"name %q not found\", name)\n\x7d\n\n\n\n") ∧
    (∀ m ∈ svc.GetMethod, ∃ pre post,
      (genGo now pkg protoFn svc dependencies).1 = pre ++ goTmpl.callCase m ++ post) ∧
    (∀ m : MethodDescriptorProto, m.GetServerStreaming = false →
      goTmpl.callCase m =
        "case \"" ++ m.GetName ++ "\":\n\t\tinput := in.(*" ++ trimLeftDot m.GetInputType ++
          ")\n\t\t" ++
          ("out, err := c." ++ printStringPtr m.Name ++ "(ctx, input, opts...)\n" ++
            "\t\treturn &onceRecv\x7bOut:out\x7d, err\n\t\t") ++ "\n\t") ∧
    (∀ m : MethodDescriptorProto, m.GetServerStreaming = true →
      goTmpl.callCase m =
        "case \"" ++ m.GetName ++ "\":\n\t\tinput := in.(*" ++ trimLeftDot m.GetInputType ++
          ")\n\t\t" ++
          ("recv, err := c." ++ printStringPtr m.Name ++ "(ctx, input, opts...)\n" ++
            "\t\tif err != nil \x7b\n\t\t\treturn nil, err\n\t\t\x7d\n" ++
            "\t\treturn multiRecv(func() (interface\x7b\x7d, error) \x7b return recv.Recv() \x7d), nil\n\t\t") ++
          "\n\t") := by
  have hend : ∃ head, (genGo now pkg protoFn svc dependencies).1 =
      head ++ String.join (svc.GetMethod.map goTmpl.callCase) ++ goTmpl.callEnd := ⟨_, rfl⟩
  refine ⟨⟨_, rfl⟩, ?_, ?_, ?_⟩
  · intro m hm
    obtain ⟨head, hhead⟩ := hend
    obtain ⟨pre, post, hjoin⟩ := string_join_map_mem goTmpl.callCase svc.GetMethod m hm
    refine ⟨head ++ pre, post ++ goTmpl.callEnd, ?_⟩
    rw [hhead, hjoin]
    simp only [String.append_assoc]
  · intro m hm
    simp only [goTmpl.callCase, hm, goTmpl.unaryBody, Bool.false_eq_true, if_false]
  · intro m hm
    simp only [goTmpl.callCase, hm, goTmpl.streamingBody, if_true, String.append_assoc]

/-- Witness for C11: a service with a unary method `Hello` and a streaming method `Watch`. -/
theorem call_cases_witness :
    (∃ pre post,
      (genGo "2016-11-04T10:00:00Z" "main" "dir/svc.proto"
        (ServiceDescriptorProto.mk (some "S") [unaryMethod, streamingMethod]) []).1 =
        pre ++ goTmpl.callCase streamingMethod ++ post) ∧
      goTmpl.callCase unaryMethod =
        "case \"" ++ unaryMethod.GetName ++ "\":\n\t\tinput := in.(*" ++
          trimLeftDot unaryMethod.GetInputType ++ ")\n\t\t" ++
          ("out, err := c." ++ printStringPtr unaryMethod.Name ++ "(ctx, input, opts...)\n" ++
            "\t\treturn &onceRecv\x7bOut:out\x7d, err\n\t\t") ++ "\n\t" :=
  ⟨(call_cases "2016-11-04T10:00:00Z" "main" "dir/svc.proto"
      (ServiceDescriptorProto.mk (some "S") [unaryMethod, streamingMethod]) []).2.1
      streamingMethod (by decide),
    (call_cases "" "" "" (ServiceDescriptorProto.mk none []) []).2.2.1 unaryMethod rfl⟩

/-- C12: for every package name, proto file name, service and dependency list, two calls of
`genGo` with the same clock reading give the same text and error, and the text at every clock
reading is one and the same text before the timestamp line, the line `//	at   ` with the clock
reading, and one and the same text after it. -/
theorem genGo_idempotent (pkg protoFn : String) (svc : ServiceDescriptorProto)
    (dependencies : List String) :
    (∀ now₁ now₂, now₁ = now₂ →
      genGo now₁ pkg protoFn svc dependencies = genGo now₂ pkg protoFn svc dependencies) ∧
    (∃ post, ∀ now, (genGo now pkg protoFn svc dependencies).1 =
      "// Generated with protoc-gen-grpcer\n//\tfrom \"" ++ protoFn ++ "\"\n" ++
        ("//\tat   " ++ now ++ "\n") ++ post) ∧
    (∀ now₁ now₂, (genGo now₁ pkg protoFn svc dependencies).2 =
      (genGo now₂ pkg protoFn svc dependencies).2) := by
  refine ⟨fun now₁ now₂ h => by rw [h], ?_, fun _ _ => rfl⟩
  constructor
  intro now
  simp only [genGo, goTmpl.Execute, goTmpl.timestampLine, String.append_assoc]
  rfl

/-- Witness for C12: two renderings of the service `Good` at the reading
`2016-11-04T10:00:00Z`. -/
theorem genGo_idempotent_witness :
    genGo "2016-11-04T10:00:00Z" "main" "dir/svc.proto"
        (ServiceDescriptorProto.mk (some "Good") [unaryMethod]) ["pkg/x.proto"] =
      genGo "2016-11-04T10:00:00Z" "main" "dir/svc.proto"
        (ServiceDescriptorProto.mk (some "Good") [unaryMethod]) ["pkg/x.proto"] :=
  (genGo_idempotent "main" "dir/svc.proto"
    (ServiceDescriptorProto.mk (some "Good") [unaryMethod]) ["pkg/x.proto"]).1
    "2016-11-04T10:00:00Z" "2016-11-04T10:00:00Z" rfl

/-- C13, as stated, fails: under a context that carries a value that is not a string under
`BasicAuthKey`, `GetRequestMetadata` returns no map at all, for it ends in the panic of the type
assertion. -/
theorem getRequestMetadata_panics :
    (NewBasicAuth "user" "secret").GetRequestMetadata foreignValueContext [] =
        Except.error GoPanic.interfaceConversion ∧
      ∀ r, (NewBasicAuth "user" "secret").GetRequestMetadata foreignValueContext [] ≠
        Except.ok r := by
  have h : (NewBasicAuth "user" "secret").GetRequestMetadata foreignValueContext [] =
      Except.error GoPanic.interfaceConversion := rfl
  refine ⟨h, fun r hr => ?_⟩
  rw [h] at hr
  exact Except.noConfusion hr

/-- C13, amended: for every context whose value under `BasicAuthKey` is a string or nil, and
every credential object, `GetRequestMetadata` returns the one-entry map `authorization ↦ c` and
no error, where `c` is the string of the context when it is there and not empty, and the string
of the credential object otherwise; so under a context made by `WithBasicAuth ctx u p` the entry
is `u:p` whatever the credential object holds, and without a value in the context the object
made by `NewBasicAuth u p` gives `u:p`. -/
theorem getRequestMetadata_result (ba : basicAuthCreds) (ctx : Context) (uri : List String) :
    (∀ s, ctx.Value BasicAuthKey = GoValue.string s → s ≠ "" →
      ba.GetRequestMetadata ctx uri = Except.ok ([("authorization", s)], none)) ∧
    (ctx.Value BasicAuthKey = GoValue.nil ∨ ctx.Value BasicAuthKey = GoValue.string "" →
      ba.GetRequestMetadata ctx uri = Except.ok ([("authorization", ba.up)], none)) ∧
    (∀ u p, ba.GetRequestMetadata (WithBasicAuth ctx u p) uri =
      Except.ok ([("authorization", u ++ ":" ++ p)], none)) ∧
    (∀ u p, ctx.Value BasicAuthKey = GoValue.nil →
      (NewBasicAuth u p).GetRequestMetadata ctx uri =
        Except.ok ([("authorization", u ++ ":" ++ p)], none)) := by
  refine ⟨?_, ?_, ?_, ?_⟩
  · intro s hs hne
    rw [getRequestMetadata_string ba ctx uri s hs, if_neg hne]
  · rintro (h | h)
    · exact getRequestMetadata_nil ba ctx uri h
    · rw [getRequestMetadata_string ba ctx uri "" h, if_pos rfl]
  · intro u p
    have hv : (WithBasicAuth ctx u p).Value BasicAuthKey = GoValue.string (u ++ ":" ++ p) := by
      simp [WithBasicAuth, context.WithValue, Context.Value]
    rw [getRequestMetadata_string ba _ uri _ hv, if_neg (credential_ne_empty u p)]
  · intro u p h
    exact getRequestMetadata_nil (NewBasicAuth u p) ctx uri h

/-- Witness for C13: the context made by `WithBasicAuth` from the empty one carries the string
`alice:pw`, which is returned; the empty context leaves the credential object's `bob:pw2`. -/
theorem getRequestMetadata_result_witness :
    (NewBasicAuth "bob" "pw2").GetRequestMetadata (WithBasicAuth [] "alice" "pw") [] =
        Except.ok ([("authorization", "alice:pw")], none) ∧
      (NewBasicAuth "bob" "pw2").GetRequestMetadata [] [] =
        Except.ok ([("authorization", "bob:pw2")], none) :=
  ⟨(getRequestMetadata_result (NewBasicAuth "bob" "pw2") (WithBasicAuth [] "alice" "pw") []).1
      "alice:pw" rfl (by decide),
    (getRequestMetadata_result (NewBasicAuth "bob" "pw2") [] []).2.1 (Or.inl rfl)⟩

/-- C14: for every request, the keys of `allTypes` are exactly the strings
`"."+package+"."+name` over the message types of the supplied files: every file is indexed,
whatever the requested names are and whether or not every requested root has been found. -/
theorem allTypes_keys (req : CodeGeneratorRequest) (k : String) :
    k ∈ (allTypes req).keys ↔
      ∃ f ∈ req.GetProtoFile, ∃ m ∈ f.GetMessageType,
        "." ++ f.GetPackage ++ "." ++ m.GetName = k :=
  allTypes_mem_keys req k

/-- C15: for every root set and type index, the keys of `msgTypes` are exactly the non-empty
input type names and output type names of the methods of the services of the roots, and each key
is mapped to what the type index holds for it, a nil descriptor when it holds nothing; the map of
`Generate` is the one built from its root set and its type index. -/
theorem msgTypes_keys_and_values (roots : GoMap FileDescriptorProto)
    (index : GoMap DescriptorProto) :
    (∀ k, k ∈ (msgTypesOf roots index).keys ↔
      k ≠ "" ∧ ∃ root ∈ roots.values, ∃ svc ∈ root.GetService, ∃ m ∈ svc.GetMethod,
        m.GetInputType = k ∨ m.GetOutputType = k) ∧
    (∀ k, k ∈ (msgTypesOf roots index).keys →
      (msgTypesOf roots index).get? k = some (index.get? k)) ∧
    (∀ k, k ∈ (msgTypesOf roots index).keys → k ∉ index.keys →
      (msgTypesOf roots index).get? k = some none) ∧
    (∀ req, msgTypes req = msgTypesOf (Grpcer.roots req) (allTypes req)) := by
  have hget : ∀ k, (msgTypesOf roots index).get? k =
      if k ∈ (rootMethods roots).flatMap typeNames then some (index.get? k) else none := by
    intro k
    rw [msgTypesOf_eq, foldl_set_get?]
    rfl
  have hkeys : ∀ k, k ∈ (msgTypesOf roots index).keys ↔
      k ∈ (rootMethods roots).flatMap typeNames := by
    intro k
    rw [GoMap.mem_keys_iff, hget]
    by_cases h : k ∈ (rootMethods roots).flatMap typeNames <;> simp [h]
  refine ⟨fun k => (hkeys k).trans (mem_rootMethods_typeNames roots k), ?_, ?_, fun _ => rfl⟩
  · intro k hk
    rw [hget, if_pos ((hkeys k).mp hk)]
  · intro k hk hmiss
    rw [hget, if_pos ((hkeys k).mp hk), (GoMap.get?_eq_none_iff index k).mpr hmiss]

/-- Witness for C15: in the request for `dir/svc.proto` the needed type `.pkg.Missing` is a key
of `msgTypes`, is not in the type index, and is mapped to a nil descriptor. -/
theorem msgTypes_keys_and_values_witness :
    (msgTypesOf (roots twoServiceRequest) (allTypes twoServiceRequest)).get? ".pkg.Missing" =
      some none :=
  (msgTypes_keys_and_values (roots twoServiceRequest) (allTypes twoServiceRequest)).2.2.1
    ".pkg.Missing" (by decide) (by decide)

/-- C16, the code at the failing input: the request for `dir/svc.proto` and the same request
without its message types are equal except for the message types of their files, and the two
schedules have the same clock readings; yet the rendering of the service `Good` is a unit of the
first response and not of the second, in which the task created for `Good` finds the loop
variable `svc` already at `Bad`: the two responses do not hold the same units. -/
theorem captured_svc_changes_the_units :
    twoServiceRequest.withoutMessageTypes =
        twoServiceRequest.withoutMessageTypes.withoutMessageTypes ∧
      sequentialSchedule.clock = laggingSchedule.clock ∧
      unitFor twoServiceRequest "2016-11-04T10:00:00Z" twoServiceFile goodService ∈
        (Generate sequentialSchedule twoServiceRequest).1.File ∧
      unitFor twoServiceRequest "2016-11-04T10:00:00Z" twoServiceFile goodService ∉
        (Generate laggingSchedule twoServiceRequest.withoutMessageTypes).1.File ∧
      ¬ (Generate sequentialSchedule twoServiceRequest).1.File.Perm
        (Generate laggingSchedule twoServiceRequest.withoutMessageTypes).1.File :=
  ⟨rfl, rfl, goodUnit_mem_sequential, goodUnit_not_mem_lagging,
    fun hperm => goodUnit_not_mem_lagging (hperm.subset goodUnit_mem_sequential)⟩

/-- C17: the destination name of the unit of a task is the same for every service of a root,
every task number and every schedule; for every root of a request the response holds at least as
many units with the name made from the destination directory and the name of the root as the
root has services, so at least two of them when the root declares two or more services. -/
theorem units_of_a_root_share_one_name (sched : Schedule) (req : CodeGeneratorRequest) :
    (∀ (root : FileDescriptorProto) (sched' : Schedule) (i j a b : Nat),
      (runTask genGo (destPkg req) (destDir req) sched i ⟨root, a⟩).1.Name =
        (runTask genGo (destPkg req) (destDir req) sched' j ⟨root, b⟩).1.Name) ∧
    (∀ root ∈ (roots req).values,
      root.GetService.length ≤
        ((Generate sched req).1.File.filter (fun u => decide (u.Name =
          some (filepath.Join [destDir req,
            strings.TrimSuffix (filepath.Base root.GetName) ".proto" ++ ".grpcer.go"])))).length) ∧
    (∀ root ∈ (roots req).values, 2 ≤ root.GetService.length →
      2 ≤ ((Generate sched req).1.File.filter (fun u => decide (u.Name =
          some (filepath.Join [destDir req,
            strings.TrimSuffix (filepath.Base root.GetName) ".proto" ++ ".grpcer.go"])))).length) := by
  have hcount : ∀ root ∈ (roots req).values,
      root.GetService.length ≤
        ((Generate sched req).1.File.filter (fun u => decide (u.Name =
          some (destFn (destDir req) root.GetName)))).length := by
    intro root hroot
    have hperm : ((Generate sched req).1.File.map (fun u => u.Name)).Perm
        ((tasks (roots req)).map (fun t => some (destFn (destDir req) t.root.GetName))) := by
      have h := (generateWith_file_perm genGo sched req).map (fun u => u.Name)
      rw [List.map_map] at h
      have hn := runTasks_names genGo (destPkg req) (destDir req) sched (tasks (roots req)) 0
      exact h.trans (by rw [← hn]; rfl)
    have hsub : ((List.range root.GetService.length).map (Task.mk root)).Sublist
        (tasks (roots req)) := by
      unfold tasks List.flatMap
      exact List.sublist_flatten_of_mem (List.mem_map.mpr ⟨root, hroot, rfl⟩)
    have h1 : ((Generate sched req).1.File.filter (fun u => decide (u.Name =
        some (destFn (destDir req) root.GetName)))).length =
        List.countP (fun n => decide (n = some (destFn (destDir req) root.GetName)))
          ((Generate sched req).1.File.map (fun u => u.Name)) := by
      rw [← List.countP_eq_length_filter, List.countP_map]
      rfl
    have h2 := hperm.countP_eq (fun n => decide (n = some (destFn (destDir req) root.GetName)))
    have h3 := (hsub.map (fun t => some (destFn (destDir req) t.root.GetName))).countP_le
      (fun n => decide (n = some (destFn (destDir req) root.GetName)))
    have h4 : List.countP (fun n => decide (n = some (destFn (destDir req) root.GetName)))
        (((List.range root.GetService.length).map (Task.mk root)).map
          (fun t => some (destFn (destDir req) t.root.GetName))) = root.GetService.length := by
      rw [List.countP_eq_length.mpr]
      · simp
      · intro n hn
        simp only [List.map_map, List.mem_map, List.mem_range, Function.comp] at hn
        obtain ⟨j, _, rfl⟩ := hn
        simp
    rw [h1, h2]
    rw [h4] at h3
    exact h3
  exact ⟨fun _ _ _ _ _ _ => rfl, hcount, fun root hroot h2 => Nat.le_trans h2 (hcount root hroot)⟩

/-- Witness for C17: the root `dir/svc.proto` declares the two services `Good` and `Bad`, and
two units of the response are named `out/svc.grpcer.go`. -/
theorem units_of_a_root_share_one_name_witness :
    2 ≤ ((Generate sequentialSchedule twoServiceRequest).1.File.filter
      (fun u => decide (u.Name = some (filepath.Join [destDir twoServiceRequest,
        strings.TrimSuffix (filepath.Base twoServiceFile.GetName) ".proto" ++
          ".grpcer.go"])))).length :=
  (units_of_a_root_share_one_name sequentialSchedule twoServiceRequest).2.2 twoServiceFile
    (by decide) (by decide)

end Grpcer
